import Mathlib

/-!
Verification development for the `web-crawling` repository (single source file
`web-crawling.py`).  The Python source is shallowly embedded below: Python
strings are modelled as `List Char` (a Python `str` is a sequence of code
points), Python `set`/`dict` as lists with set/dict semantics, the standard
library functions the crawler calls (`urllib.parse.urlparse/urljoin/urlunparse`,
`os.path.split/splitext/join`, `hashlib.sha1`, the two extension regexes) are
translated from their reference implementations, and the effectful parts
(HTTP transport, filesystem, robots policy, signal flag) are supplied by a
`World` oracle.  Unhandled Python exceptions are modelled by a `crash` result
that aborts the crawl loop, mirroring exception propagation.
-/

set_option maxRecDepth 8000

namespace WebCrawl

/-- Python `str` modelled as a list of code points. -/
abbrev Str := List Char

/-- Coerce a Lean string literal to the `Str` model. -/
def str (s : String) : Str := s.data

/-! ### Character classes and stripping, as in `urllib.parse` -/

/-- Membership in `_WHATWG_C0_CONTROL_OR_SPACE` (code points 0x00–0x20). -/
def isC0OrSpace (c : Char) : Bool := c.toNat ≤ 32

/-- Membership in `_UNSAFE_URL_BYTES_TO_REMOVE` (tab, CR, LF). -/
def isTRN (c : Char) : Bool := c == '\t' || c == '\r' || c == '\n'

/-- The cleanup `urlsplit` applies to its `url` argument: lstrip C0
controls/space, then remove every tab/CR/LF. -/
def stripUrl (u : Str) : Str := (u.dropWhile isC0OrSpace).filter (fun c => !(isTRN c))

/-- The cleanup `urlsplit` applies to its default-`scheme` argument:
strip C0 controls/space at both ends, then remove every tab/CR/LF. -/
def stripDefaultScheme (d : Str) : Str :=
  (((d.dropWhile isC0OrSpace).reverse.dropWhile isC0OrSpace).reverse).filter (fun c => !(isTRN c))

/-- ASCII uppercase letter (same test as `Char.isUpper`, written on code
points). -/
def charIsUpper (c : Char) : Bool := 65 ≤ c.toNat && c.toNat ≤ 90

/-- ASCII lowercase letter (same test as `Char.isLower`). -/
def charIsLower (c : Char) : Bool := 97 ≤ c.toNat && c.toNat ≤ 122

/-- ASCII letter (same test as `Char.isAlpha`, i.e. Python's
`c.isascii() and c.isalpha()`). -/
def charIsAlpha (c : Char) : Bool := charIsUpper c || charIsLower c

/-- ASCII digit (same test as `Char.isDigit`). -/
def charIsDigit (c : Char) : Bool := 48 ≤ c.toNat && c.toNat ≤ 57

/-- ASCII lowercasing of one character (same mapping as `Char.toLower` and
Python `str.lower` on ASCII). -/
def pyLower (c : Char) : Char := if charIsUpper c then Char.ofNat (c.toNat + 32) else c

/-- Membership in `scheme_chars` (ASCII letters, digits, `+`, `-`, `.`). -/
def isSchemeChar (c : Char) : Bool :=
  charIsAlpha c || charIsDigit c || c == '+' || c == '-' || c == '.'

/-- ASCII lowercase of a string (schemes contain only ASCII). -/
def lowerStr (s : Str) : Str := s.map pyLower

/-- Split at the first occurrence of `c`: returns the part before and the part
after (after is `[]` when `c` is absent), i.e. Python `s.split(c, 1)` combined
with the `if c in s` guard. -/
def pySplitFirst (c : Char) (l : Str) : Str × Str :=
  (l.takeWhile (· != c), (l.dropWhile (· != c)).drop 1)

/-! ### `urlsplit` / `urlparse` / `urlunparse` / `urljoin` -/

/-- The six named fields of a `ParseResult` (a `SplitResult` has `params`
empty). -/
structure UrlParts where
  scheme : Str
  netloc : Str
  path : Str
  params : Str
  query : Str
  fragment : Str
deriving DecidableEq, Repr

/-- Scheme detection of `urlsplit`: the text before the first `:` must be
nonempty, start with an ASCII letter and consist of `scheme_chars`; on success
the lowercased scheme and the remainder are returned. -/
def schemeDetect (u : Str) : Option (Str × Str) :=
  let pre := u.takeWhile (· != ':')
  match u.dropWhile (· != ':') with
  | [] => none
  | _ :: after =>
    match pre with
    | [] => none
    | c :: cs => if charIsAlpha c && cs.all isSchemeChar then some (lowerStr pre, after) else none

/-- A character ending the netloc section (`/`, `?` or `#`), as in
`_splitnetloc`. -/
def isNetlocDelim (c : Char) : Bool := c == '/' || c == '?' || c == '#'

/-- `_splitnetloc(url, 2)` applied to the text after the leading `//`. -/
def splitnetloc (l : Str) : Str × Str :=
  (l.takeWhile (fun c => !(isNetlocDelim c)), l.dropWhile (fun c => !(isNetlocDelim c)))

/-- Core of `urlsplit` on an already-cleaned url and default scheme.
The IPv6-bracket `ValueError` and `_checknetloc` checks are not modelled
(the crawler never catches them separately). -/
def urlsplitCore (dflt : Str) (u : Str) : UrlParts :=
  let sr := match schemeDetect u with
    | some p => p
    | none => (dflt, u)
  let nr := if sr.2.take 2 = str ("//") then splitnetloc (sr.2.drop 2) else ([], sr.2)
  let fr := pySplitFirst '#' nr.2
  let pq := pySplitFirst '?' fr.1
  ⟨sr.1, nr.1, pq.1, [], pq.2, fr.2⟩

/-- `urllib.parse.urlsplit(url, scheme)` with `allow_fragments=True`. -/
def urlsplitPy (dflt u : Str) : UrlParts := urlsplitCore (stripDefaultScheme dflt) (stripUrl u)

/-- `uses_params` from `urllib.parse`. -/
def usesParams : List Str :=
  [[], str ("ftp"), str ("hdl"), str ("prospero"), str ("http"), str ("imap"),
   str ("https"), str ("shttp"), str ("rtsp"), str ("rtspu"), str ("sip"),
   str ("sips"), str ("mms"), str ("sftp"), str ("tel")]

/-- `uses_relative` from `urllib.parse`. -/
def usesRelative : List Str :=
  [[], str ("ftp"), str ("http"), str ("gopher"), str ("nntp"), str ("imap"),
   str ("wais"), str ("file"), str ("https"), str ("shttp"), str ("mms"),
   str ("prospero"), str ("rtsp"), str ("rtspu"), str ("sftp"), str ("svn"),
   str ("svn+ssh"), str ("ws"), str ("wss")]

/-- `uses_netloc` from `urllib.parse`. -/
def usesNetloc : List Str :=
  [[], str ("ftp"), str ("http"), str ("gopher"), str ("nntp"), str ("telnet"),
   str ("imap"), str ("wais"), str ("file"), str ("mms"), str ("https"),
   str ("shttp"), str ("snews"), str ("prospero"), str ("rtsp"), str ("rtspu"),
   str ("rsync"), str ("svn"), str ("svn+ssh"), str ("sftp"), str ("nfs"),
   str ("git"), str ("git+ssh"), str ("ws"), str ("wss"), str ("itms-services")]

/-- The segment of `p` after its last `/` (all of `p` when `/` is absent). -/
def lastSlashSeg (p : Str) : Str := (p.reverse.takeWhile (· != '/')).reverse

/-- `_splitparams(url)`: when `url` contains `/`, split at the first `;`
inside the last segment (no-op when that segment has none); otherwise split at
the first `;` overall. -/
def pySplitParams (p : Str) : Str × Str :=
  if p.contains '/' then
    let seg := lastSlashSeg p
    if seg.contains ';' then
      (p.take (p.length - seg.length) ++ seg.takeWhile (· != ';'),
       (seg.dropWhile (· != ';')).drop 1)
    else (p, [])
  else (p.takeWhile (· != ';'), (p.dropWhile (· != ';')).drop 1)

/-- `urllib.parse.urlparse(url, scheme)`: `urlsplit` plus the params split when
the scheme is in `uses_params` and the path contains `;`. -/
def urlparsePy (dflt u : Str) : UrlParts :=
  let r := urlsplitPy dflt u
  if r.scheme ∈ usesParams ∧ r.path.contains ';' then
    let pp := pySplitParams r.path
    { r with path := pp.1, params := pp.2 }
  else r

/-- `urllib.parse.urlunsplit` (CPython 3.11: the `//` section is emitted when
the netloc is nonempty, or when the scheme is nonempty, uses a netloc and the
url does not already start with `//`). -/
def urlunsplit (scheme netloc url query fragment : Str) : Str :=
  let url1 := if netloc ≠ [] ∨ (scheme ≠ [] ∧ scheme ∈ usesNetloc ∧ ¬ url.take 2 = str ("//"))
    then
      str ("//") ++ netloc ++ (if url ≠ [] ∧ url.head? ≠ some '/' then '/' :: url else url)
    else url
  let url2 := if scheme ≠ [] then scheme ++ ':' :: url1 else url1
  let url3 := if query ≠ [] then url2 ++ '?' :: query else url2
  if fragment ≠ [] then url3 ++ '#' :: fragment else url3

/-- `urllib.parse.urlunparse`. -/
def urlunparse (p : UrlParts) : Str :=
  urlunsplit p.scheme p.netloc
    (if p.params ≠ [] then p.path ++ ';' :: p.params else p.path) p.query p.fragment

/-- `ParseResult.geturl()`. -/
def geturl (p : UrlParts) : Str := urlunparse p

/-- Python `s.split('/')` (which returns `[""]` on the empty string). -/
def splitSlash : Str → List Str
  | [] => [[]]
  | c :: t =>
    match splitSlash t with
    | [] => [[]]
    | h :: rs => if c = '/' then [] :: h :: rs else (c :: h) :: rs

/-- Helper for `segments[1:-1] = filter(None, segments[1:-1])`: filter empties
out of a list but always keep its last element. -/
def keepLastFilter : List Str → List Str
  | [] => []
  | [b] => [b]
  | b :: c :: rest =>
    if b = [] then keepLastFilter (c :: rest) else b :: keepLastFilter (c :: rest)

/-- `segments[1:-1] = filter(None, segments[1:-1])`: keep the first and last
elements, drop empty strings in between. -/
def filterMiddle : List Str → List Str
  | [] => []
  | [a] => [a]
  | a :: c :: rest => a :: keepLastFilter (c :: rest)

/-- The dot-segment resolution loop of `urljoin` (`..` pops, `.` is skipped,
popping an empty stack is ignored). -/
def resolveSegs (acc : List Str) : List Str → List Str
  | [] => acc
  | s :: rest =>
    if s = str ("..") then resolveSegs acc.dropLast rest
    else if s = str (".") then resolveSegs acc rest
    else resolveSegs (acc ++ [s]) rest

/-- `urllib.parse.urljoin` (RFC 3986 based implementation, CPython ≥ 3.5). -/
def urljoin (base url : Str) : Str :=
  if base = [] then url
  else if url = [] then base
  else
    let b := urlparsePy [] base
    let p := urlparsePy b.scheme url
    if ¬ (p.scheme = b.scheme ∧ p.scheme ∈ usesRelative) then url
    else if p.scheme ∈ usesNetloc ∧ p.netloc ≠ [] then urlunparse p
    else
      let netloc := if p.scheme ∈ usesNetloc then b.netloc else p.netloc
      if p.path = [] ∧ p.params = [] then
        urlunparse { scheme := p.scheme, netloc := netloc, path := b.path, params := b.params,
                     query := if p.query = [] then b.query else p.query, fragment := p.fragment }
      else
        let baseParts0 := splitSlash b.path
        let baseParts := if baseParts0.getLast? ≠ some [] then baseParts0.dropLast else baseParts0
        let segments :=
          if p.path.head? = some '/' then splitSlash p.path
          else filterMiddle (baseParts ++ splitSlash p.path)
        let resolved0 := resolveSegs [] segments
        let resolved :=
          if segments.getLast? = some (str (".")) ∨ segments.getLast? = some (str ("..")) then
            resolved0 ++ [[]]
          else resolved0
        let joined := List.intercalate (str ("/")) resolved
        urlunparse { scheme := p.scheme, netloc := netloc,
                     path := if joined = [] then str ("/") else joined,
                     params := p.params, query := p.query, fragment := p.fragment }

/-! ### `posixpath` operations used by the crawler -/

/-- Index of the last occurrence of `c` in `p` (Python `rfind`, `none` for -1). -/
def rfindPos (c : Char) (p : Str) : Option Nat :=
  match p.reverse.findIdx? (· == c) with
  | none => none
  | some j => some (p.length - 1 - j)

/-- `os.path.split` (POSIX): split after the last `/`; the head keeps one
trailing-slash run only when it consists entirely of slashes. -/
def osSplit (p : Str) : Str × Str :=
  let tail := (p.reverse.takeWhile (· != '/')).reverse
  let head := p.take (p.length - tail.length)
  (if head ≠ [] ∧ head.any (· != '/') then (head.reverse.dropWhile (· == '/')).reverse else head,
   tail)

/-- `os.path.splitext` (POSIX): split at the last dot of the final component,
unless every character between the component start and that dot is a dot
(leading-dot files have no extension). -/
def osSplitext (p : Str) : Str × Str :=
  let sepIdx : Nat := match rfindPos '/' p with | some i => i + 1 | none => 0
  match rfindPos '.' p with
  | none => (p, [])
  | some d =>
    if sepIdx ≤ d then
      if ((p.drop sepIdx).take (d - sepIdx)).any (· != '.') then (p.take d, p.drop d)
      else (p, [])
    else (p, [])

/-- `os.path.join` (POSIX) for two components. -/
def osJoin (a b : Str) : Str :=
  if b.head? = some '/' then b
  else if a = [] ∨ a.getLast? = some '/' then a ++ b
  else a ++ '/' :: b

/-! ### The two extension regexes -/

/-- One alternative of the pattern `.*\.(e1|...|ek)$` with `re.I` and the
default (non-`DOTALL`, non-`MULTILINE`) semantics: the string (lowercased)
must end in `.` + extension, optionally followed by a single final newline,
and `.*` cannot cross a newline. -/
def dotExtSuffixMatch (s e : Str) : Bool :=
  let p := '.' :: e
  (p.isSuffixOf s && (s.take (s.length - p.length)).all (· != '\n'))
  || ((p ++ [ '\n' ]).isSuffixOf s && (s.take (s.length - p.length - 1)).all (· != '\n'))

/-- `re.compile(r".*\.(...)$", re.I).match(s)` truthiness for an extension
alternation. -/
def extRegexMatch (exts : List Str) (s0 : Str) : Bool :=
  let s := lowerStr s0
  exts.any fun e => dotExtSuffixMatch s e

/-- Extension list of `IGNORED_EXTENSIONS`. -/
def IGNORED_EXTENSIONS : List Str :=
  [str ("css"), str ("js"), str ("json"), str ("zip"), str ("rar"), str ("exe"),
   str ("tar"), str ("gz"), str ("mp3"), str ("mp4"), str ("avi"), str ("mov")]

/-- Extension list of `ASSET_EXTENSIONS`. -/
def ASSET_EXTENSIONS : List Str :=
  [str ("jpg"), str ("jpeg"), str ("png"), str ("gif"), str ("svg"), str ("webp"),
   str ("bmp"), str ("pdf"), str ("doc"), str ("docx"), str ("xls"), str ("xlsx"),
   str ("ppt"), str ("pptx")]

/-! ### `_is_valid_href` -/

/-- Python `str.strip()` whitespace (ASCII part: space, tab, LF, CR, VT, FF). -/
def isPySpace (c : Char) : Bool :=
  c == ' ' || c == '\t' || c == '\n' || c == '\r' || c == '\x0b' || c == '\x0c'

/-- Python `str.strip()`. -/
def pyStripWs (s : Str) : Str :=
  ((s.dropWhile isPySpace).reverse.dropWhile isPySpace).reverse

/-- `_is_valid_href`: empty, fragment-only, `javascript:`, `mailto:`, `tel:`
and ignored-extension hrefs (the regex is applied to the whole stripped href)
are invalid. -/
def isValidHref (href : Str) : Bool :=
  if href = [] then false
  else
    let h := pyStripWs href
    if h.take 1 = str ("#") then false
    else if (str ("javascript:")).isPrefixOf h then false
    else if (str ("mailto:")).isPrefixOf h then false
    else if (str ("tel:")).isPrefixOf h then false
    else if extRegexMatch IGNORED_EXTENSIONS h then false
    else true

/-! ### SHA-1 (`hashlib.sha1(...).hexdigest()`), over UTF-8 bytes -/

/-- UTF-8 encoding of one code point (as byte values). -/
def utf8Encode (c : Char) : List Nat :=
  let n := c.toNat
  if n < 128 then [n]
  else if n < 2048 then [192 + n / 64, 128 + n % 64]
  else if n < 65536 then [224 + n / 4096, 128 + (n / 64) % 64, 128 + n % 64]
  else [240 + n / 262144, 128 + (n / 4096) % 64, 128 + (n / 64) % 64, 128 + n % 64]

/-- `s.encode("utf-8")` as a byte list. -/
def utf8Bytes (s : Str) : List Nat := (s.map utf8Encode).flatten

/-- Truncation to 32 bits. -/
def u32 (x : Nat) : Nat := x % 4294967296

/-- 32-bit left rotation (for `x < 2^32`). -/
def rotl (n x : Nat) : Nat := u32 (x * 2 ^ n) + x / 2 ^ (32 - n)

/-- Big-endian byte serialization of `x` into `n` bytes. -/
def bytesBE : Nat → Nat → List Nat
  | 0, _ => []
  | n + 1, x => bytesBE n (x / 256) ++ [x % 256]

/-- SHA-1 message padding. -/
def sha1Pad (msg : List Nat) : List Nat :=
  msg ++ [128] ++ List.replicate ((119 - msg.length % 64) % 64) 0 ++ bytesBE 8 (8 * msg.length)

/-- Pack bytes into big-endian 32-bit words. -/
def toWords : List Nat → List Nat
  | b0 :: b1 :: b2 :: b3 :: rest => (((b0 * 256 + b1) * 256 + b2) * 256 + b3) :: toWords rest
  | _ => []

/-- Append one word of the SHA-1 message schedule. -/
def sha1ExtendStep (w : List Nat) : List Nat :=
  w ++ [rotl 1 (Nat.xor
    (Nat.xor (w.getD (w.length - 3) 0) (w.getD (w.length - 8) 0))
    (Nat.xor (w.getD (w.length - 14) 0) (w.getD (w.length - 16) 0)))]

/-- Iterate `sha1ExtendStep`. -/
def sha1ExtendAux : Nat → List Nat → List Nat
  | 0, w => w
  | n + 1, w => sha1ExtendAux n (sha1ExtendStep w)

/-- Extend a 16-word block to the 80-word SHA-1 schedule. -/
def sha1Extend (w : List Nat) : List Nat := sha1ExtendAux (80 - w.length) w

/-- One SHA-1 compression round. -/
def sha1Round (i : Nat) (st : Nat × Nat × Nat × Nat × Nat) (wi : Nat) :
    Nat × Nat × Nat × Nat × Nat :=
  match st with
  | (a, b, c, d, e) =>
    let f :=
      if i < 20 then Nat.lor (Nat.land b c) (Nat.land (Nat.xor b 4294967295) d)
      else if i < 40 then Nat.xor (Nat.xor b c) d
      else if i < 60 then Nat.lor (Nat.lor (Nat.land b c) (Nat.land b d)) (Nat.land c d)
      else Nat.xor (Nat.xor b c) d
    let k :=
      if i < 20 then 1518500249
      else if i < 40 then 1859775393
      else if i < 60 then 2400959708
      else 3395469782
    (u32 (rotl 5 a + f + e + k + wi), a, rotl 30 b, c, d)

/-- Run the 80 rounds of one block. -/
def sha1Rounds (i : Nat) (st : Nat × Nat × Nat × Nat × Nat) : List Nat → Nat × Nat × Nat × Nat × Nat
  | [] => st
  | wi :: rest => sha1Rounds (i + 1) (sha1Round i st wi) rest

/-- Process the padded byte stream block by block (the fuel bounds the number
of blocks; `sha1Hexdigest` supplies enough). -/
def sha1BlocksAux : Nat → Nat × Nat × Nat × Nat × Nat → List Nat → Nat × Nat × Nat × Nat × Nat
  | 0, h, _ => h
  | _ + 1, h, [] => h
  | fuel + 1, h, bytes =>
    match h, sha1Rounds 0 h (sha1Extend (toWords (bytes.take 64))) with
    | (h0, h1, h2, h3, h4), (a, b, c, d, e) =>
      sha1BlocksAux fuel (u32 (h0 + a), u32 (h1 + b), u32 (h2 + c), u32 (h3 + d), u32 (h4 + e))
        (bytes.drop 64)

/-- Process the padded byte stream block by block. -/
def sha1Blocks (h : Nat × Nat × Nat × Nat × Nat) (bytes : List Nat) : Nat × Nat × Nat × Nat × Nat :=
  sha1BlocksAux bytes.length h bytes

/-- Lowercase hex digit. -/
def hexDigit (n : Nat) : Char := if n < 10 then Char.ofNat (48 + n) else Char.ofNat (87 + n)

/-- Eight-hex-digit rendering of a 32-bit word. -/
def hex8 (x : Nat) : Str := (List.range 8).map fun i => hexDigit (x / 16 ^ (7 - i) % 16)

/-- `hashlib.sha1(bytes).hexdigest()`. -/
def sha1Hexdigest (bytes : List Nat) : Str :=
  match sha1Blocks (1732584193, 4023233417, 2562383102, 271733878, 3285377520)
      (sha1Pad bytes) with
  | (h0, h1, h2, h3, h4) => hex8 h0 ++ hex8 h1 ++ hex8 h2 ++ hex8 h3 ++ hex8 h4

/-- `hashlib.sha1(url.encode("utf-8")).hexdigest()[:10]`. -/
def sha1hex10 (s : Str) : Str := (sha1Hexdigest (utf8Bytes s)).take 10

/-! ### `_safe_filename_from_url` and `_safe_asset_path` -/

/-- `re.sub(r"[^0-9A-Za-z\-_]", "_", q)`. -/
def querySanitize (q : Str) : Str :=
  q.map fun c => if c.isAlphanum || c == '-' || c == '_' then c else '_'

/-- The shared over-length final-component handling of both path builders:
when the final component exceeds 200 characters, truncate its stem and insert
`__` + the first ten hex digits of the SHA-1 of the source URL before the
extension.  `minAllowed` is 16 for page paths and 8 for asset paths.
Python computes `allowed` with int subtraction, which can go negative; since
any value below `minAllowed` is clamped up, the `Nat` truncated subtraction
here is equivalent. -/
def capComponent (minAllowed : Nat) (sourceUrl sp : Str) : Str :=
  let dl := osSplit sp
  if 200 < dl.2.length then
    let ne := osSplitext dl.2
    let h := sha1hex10 sourceUrl
    let allowed0 := 200 - ne.2.length - 3 - h.length
    let allowed := if allowed0 < minAllowed then minAllowed else allowed0
    osJoin dl.1 (ne.1.take allowed ++ str ("__") ++ h ++ ne.2)
  else sp

/-- The `.md`-suffix enforcement (lines 68–69). -/
def ensureMdSuffix (p : Str) : Str :=
  if (str (".md")).isSuffixOf p then p else p ++ str (".md")

/-- `_safe_filename_from_url(base_url, target_url)` (the parsed `base_url` is
unused in the source as well). -/
def safeFilenameFromUrl (baseUrl targetUrl : Str) : Str :=
  let ut := urlparsePy [] targetUrl
  let path0 := if ut.path = [] then str ("/") else ut.path
  let path1 := if path0.getLast? = some '/' then path0 ++ str ("index") else path0
  let safe0 := path1.dropWhile (· == '/')
  let safe1 := if safe0 = [] then str ("index") else safe0
  let safe2 := if ut.query ≠ [] then safe1 ++ str ("__") ++ querySanitize ut.query else safe1
  capComponent 16 targetUrl (ensureMdSuffix safe2)

/-- `_safe_asset_path(base, resource_url)` (its `base` parameter is unused in
the source; `assetsDir` is the closed-over `assets_dir`). -/
def safeAssetPath (assetsDir : Str) (base resourceUrl : Str) : Str :=
  let u := urlparsePy [] resourceUrl
  let ap0 := if u.path.dropWhile (· == '/') = [] then str ("root") else u.path.dropWhile (· == '/')
  let ap1 := if u.query ≠ [] then ap0 ++ str ("__") ++ querySanitize u.query else ap0
  let ap2 := if (osSplitext ap1).2 = [] then ap1 ++ str (".bin") else ap1
  osJoin (osJoin assetsDir u.netloc) (capComponent 8 resourceUrl ap2)

/-! ### The crawl-state engine (`crawl_site_to_markdown`)

The loop body of `crawl_site_to_markdown` is embedded as a step function over
an explicit state.  Effects are supplied by a `World`:

* `canFetch` is `robots_parser.can_fetch` for the fetched policy;
* `robotsReadOk` is whether `robots_parser.read()` succeeded (on failure the
  source sets `robots_parser = None`, i.e. allows everything);
* `fetch url` is the GET of the page (`raise_for_status` included) + parse:
  `none` models any transport error or non-success status, `some page` gives
  the title element and the `img[src]` / `a[href]` attribute lists;
* `pageWriteOk` / `assetMkdirOk` / `assetWriteOk` / `indexWriteOk` model
  filesystem success of the corresponding `os.makedirs`/`open`/`write` calls
  (keyed by path); a `false` on an *uncaught* call produces a `crash`;
* `shutdownAt k` is the SIGINT flag as read by the `k`-th loop-condition check;
* `checkpointOnDisk` models the checkpoint file at startup (`none`: absent;
  `some none`: present but unreadable/malformed JSON; `some (some doc)`:
  readable), and `saveOk n` whether the `n`-th `_save_state` call succeeds.

Journal fields (`pageGets`, `assetGets`, `robotsDeniedAtDequeue`,
`pageWrites`, `assetWrites`, `savedDocs`) record the externally visible
actions and do not feed back into control flow. -/

/-- A successfully fetched and parsed page. -/
structure Page where
  title : Option Str
  imgSrcs : List Str
  hrefs : List Str
deriving Repr, DecidableEq

/-- The checkpoint document written by `_save_state` (`last_saved` is a wall
clock timestamp and carries no crawl state; it is not modelled). -/
structure CheckpointDoc where
  to_visit : List Str
  visited : List Str
  discovered_titles : List (Str × Str)
deriving DecidableEq, Repr

/-- Environment oracle for one run. -/
structure World where
  robotsReadOk : Bool
  canFetch : Str → Str → Bool
  fetch : Str → Option Page
  pageWriteOk : Str → Bool
  assetFetchOk : Str → Bool
  assetMkdirOk : Str → Bool
  assetWriteOk : Str → Bool
  indexWriteOk : Bool
  checkpointOnDisk : Option (Option CheckpointDoc)
  saveOk : Nat → Bool
  shutdownAt : Nat → Bool

/-- The keyword parameters of `crawl_site_to_markdown` that affect crawl
state (`delay`/`jitter` only sleep, `include_frontmatter` only changes
document text, `checkpoint_file` only names the checkpoint path). -/
structure Config where
  start_url : Str
  output_dir : Str
  max_pages : Nat
  respect_robots : Bool
  user_agent : Str
  resume : Bool
  save_every : Nat

/-- `robots_parser` is non-`None` iff robots are respected and the policy
read succeeded. -/
def robotsActive (w : World) (cfg : Config) : Bool := cfg.respect_robots && w.robotsReadOk

/-- `base_netloc = urlparse(start_url).netloc`. -/
def baseNetloc (cfg : Config) : Str := (urlparsePy [] cfg.start_url).netloc

/-- `base_scheme = urlparse(start_url).scheme`. -/
def baseScheme (cfg : Config) : Str := (urlparsePy [] cfg.start_url).scheme

/-- The mutable crawl state plus an action journal. -/
structure CrawlState where
  to_visit : List Str
  visited : List Str
  discovered_titles : List (Str × Str)
  pages_done : Nat
  iter : Nat
  checkpointExists : Bool
  saveAttempts : Nat
  savedDocs : List CheckpointDoc
  pageGets : List Str
  assetGets : List Str
  robotsDeniedAtDequeue : List Str
  pageWrites : List Str
  assetWrites : List Str
deriving Repr, DecidableEq

/-- Python `dict` assignment `d[k] = v` on an insertion-ordered assoc list. -/
def pyDictInsert (d : List (Str × Str)) (k v : Str) : List (Str × Str) :=
  if k ∈ d.map Prod.fst then d.map (fun kv => if kv.1 = k then (k, v) else kv) else d ++ [(k, v)]

/-- Python `d.update(upd)` for two dicts. -/
def pyDictUpdate (d upd : List (Str × Str)) : List (Str × Str) :=
  upd.foldl (fun acc kv => pyDictInsert acc kv.1 kv.2) d

/-- The checkpoint document `_save_state` serializes. -/
def saveDocOf (s : CrawlState) : CheckpointDoc :=
  ⟨s.to_visit, s.visited, s.discovered_titles⟩

/-- `_save_state()`: attempt a checkpoint write; any exception is caught, so
a failed attempt only misses the journal/disk update. -/
def saveState (w : World) (s : CrawlState) : CrawlState :=
  let ok := w.saveOk s.saveAttempts
  { s with saveAttempts := s.saveAttempts + 1,
           checkpointExists := s.checkpointExists || ok,
           savedDocs := if ok then s.savedDocs ++ [saveDocOf s] else s.savedDocs }

/-- The in-memory state right after lines 115–125 of the source:
`to_visit = [start_url]`, empty visited set and title dict. -/
def freshState (w : World) (cfg : Config) : CrawlState :=
  { to_visit := [cfg.start_url], visited := [], discovered_titles := [],
    pages_done := 0, iter := 0, checkpointExists := w.checkpointOnDisk.isSome,
    saveAttempts := 0, savedDocs := [], pageGets := [], assetGets := [],
    robotsDeniedAtDequeue := [], pageWrites := [], assetWrites := [] }

/-- The resume merge (lines 128–137): `to_visit` is replaced, `visited` is
rebuilt as a set from the stored list, `discovered_titles` is `dict.update`d. -/
def applyLoad (doc : CheckpointDoc) (s : CrawlState) : CrawlState :=
  { s with to_visit := doc.to_visit, visited := doc.visited.dedup,
           discovered_titles := pyDictUpdate s.discovered_titles doc.discovered_titles }

/-- Crawl state at loop entry, including the optional resume load (a missing
or malformed checkpoint file is ignored). -/
def initState (w : World) (cfg : Config) : CrawlState :=
  if cfg.resume then
    match w.checkpointOnDisk with
    | some (some doc) => applyLoad doc (freshState w cfg)
    | _ => freshState w cfg
  else freshState w cfg

/-- The `while` condition (line 163): frontier nonempty, visited-count below
the page budget, shutdown flag unset. -/
def loopGuard (w : World) (cfg : Config) (s : CrawlState) : Bool :=
  !s.to_visit.isEmpty && decide (s.visited.length < cfg.max_pages) && !(w.shutdownAt s.iter)

/-- Result of running code that may raise an unhandled exception. -/
inductive StepRes where
  | ok (s : CrawlState)
  | crash (s : CrawlState)
deriving Repr, DecidableEq

/-- `_is_asset_link`. -/
def isAssetLink (link : Str) : Bool :=
  if link = [] then false else extRegexMatch ASSET_EXTENSIONS link

/-- `_download_asset(session, asset_url)`: resolve against the page URL, pass
`data:` URIs through, attempt the GET (failure caught), then `os.makedirs`
on the parent directory (NOT inside a try: failure crashes) and the byte
write (failure caught).  The returned relative path only feeds the reference
rewrite in the page markup, which is not part of the crawl state. -/
def downloadAsset (w : World) (cfg : Config) (pageUrl : Str) (s : CrawlState) (ref : Str) :
    StepRes :=
  let absU := urljoin pageUrl ref
  if (str ("data:")).isPrefixOf absU then .ok s
  else
    let s1 := { s with assetGets := s.assetGets ++ [absU] }
    if !(w.assetFetchOk absU) then .ok s1
    else
      let localPath := safeAssetPath (osJoin cfg.output_dir (str ("assets"))) pageUrl absU
      if !(w.assetMkdirOk (osSplit localPath).1) then .crash s1
      else if !(w.assetWriteOk localPath) then .ok s1
      else .ok { s1 with assetWrites := s1.assetWrites ++ [localPath] }

/-- Sequence a crash-capable handler over a list of references. -/
def foldAssets (f : CrawlState → Str → StepRes) : CrawlState → List Str → StepRes
  | s, [] => .ok s
  | s, x :: xs =>
    match f s x with
    | .ok s1 => foldAssets f s1 xs
    | .crash s1 => .crash s1

/-- The `img[src]` loop (lines 247–254): download when the src matches the
asset extension set or is a `data:` URI. -/
def processImgs (w : World) (cfg : Config) (pageUrl : Str) (s : CrawlState) (srcs : List Str) :
    StepRes :=
  foldAssets
    (fun st src =>
      if src = [] then .ok st
      else if isAssetLink src || (str ("data:")).isPrefixOf src then
        downloadAsset w cfg pageUrl st src
      else .ok st)
    s srcs

/-- The `a[href]` asset loop (lines 257–264). -/
def processHrefAssets (w : World) (cfg : Config) (pageUrl : Str) (s : CrawlState)
    (hrefs : List Str) : StepRes :=
  foldAssets
    (fun st href =>
      if href = [] then .ok st
      else if isAssetLink href then downloadAsset w cfg pageUrl st href
      else .ok st)
    s hrefs

/-- The enqueue normalization (lines 298–301 and 309–312 are the same
expression): default the scheme from the start URL, default an empty path to
`/`, drop params and fragment, keep the query. -/
def normalizeUrl (bs : Str) (u : Str) : Str :=
  let p := urlparsePy [] u
  urlunparse { scheme := if p.scheme ≠ [] then p.scheme else bs, netloc := p.netloc,
               path := if p.path ≠ [] then p.path else str ("/"), params := [],
               query := p.query, fragment := [] }

/-- One iteration of the link-discovery loop (lines 288–314). -/
def enqueueLink (w : World) (cfg : Config) (pageUrl : Str) (s : CrawlState) (href : Str) :
    CrawlState :=
  if !(isValidHref href) then s
  else
    let newUrl := urljoin pageUrl href
    let pn := urlparsePy [] newUrl
    if pn.netloc ≠ baseNetloc cfg then s
    else
      let normalized := normalizeUrl (baseScheme cfg) newUrl
      if robotsActive w cfg && !(w.canFetch cfg.user_agent normalized) then s
      else if extRegexMatch ASSET_EXTENSIONS (if pn.path ≠ [] then pn.path else geturl pn) then s
      else if normalized ∉ s.visited ∧ normalized ∉ s.to_visit then
        { s with to_visit := s.to_visit ++ [normalized] }
      else s

/-- Lines 247–328 on a fetched page: asset downloads, the page-document
write (uncaught: may crash), link discovery, the pages counter and the
periodic checkpoint. -/
def renderAndDiscover (w : World) (cfg : Config) (url : Str) (page : Page) (s : CrawlState) :
    StepRes :=
  match processImgs w cfg url s page.imgSrcs with
  | .crash sc => .crash sc
  | .ok s4 =>
    match processHrefAssets w cfg url s4 page.hrefs with
    | .crash sc => .crash sc
    | .ok s5 =>
      let fullPath := osJoin cfg.output_dir (safeFilenameFromUrl cfg.start_url url)
      if !(w.pageWriteOk fullPath) then .crash s5
      else
        let s6 := { s5 with pageWrites := s5.pageWrites ++ [fullPath] }
        let s7 := page.hrefs.foldl (enqueueLink w cfg url) s6
        let s8 := { s7 with pages_done := s7.pages_done + 1 }
        .ok (if s8.pages_done % cfg.save_every == 0 then saveState w s8 else s8)

/-- Lines 174–328: the GET (recorded in `pageGets`), marking visited, title
extraction, then `renderAndDiscover`. -/
def fetchAndProcess (w : World) (cfg : Config) (url : Str) (s : CrawlState) : StepRes :=
  let s1 := { s with pageGets := s.pageGets ++ [url] }
  match w.fetch url with
  | none => .ok { s1 with visited := s1.visited ++ [url] }
  | some page =>
    let s2 := { s1 with visited := s1.visited ++ [url] }
    renderAndDiscover w cfg url page
      { s2 with discovered_titles := pyDictInsert s2.discovered_titles url (page.title.getD url) }

/-- One iteration of the `while` body (lines 164–328), assuming the loop
condition held.  The page-document `os.makedirs`/`open`/`write` (lines
270–285) is not inside any `try`, so its failure crashes; so does a failure
of the `os.makedirs` at line 234. -/
def crawlStep (w : World) (cfg : Config) (s0 : CrawlState) : StepRes :=
  match s0.to_visit with
  | [] => .ok s0
  | url :: rest =>
    let s := { s0 with to_visit := rest, iter := s0.iter + 1 }
    if url ∈ s.visited then .ok s
    else if robotsActive w cfg && !(w.canFetch cfg.user_agent url) then
      .ok { s with visited := s.visited ++ [url],
                   robotsDeniedAtDequeue := s.robotsDeniedAtDequeue ++ [url] }
    else fetchAndProcess w cfg url s

/-- Run up to `n` loop iterations (stopping early when the loop condition
fails or an exception escapes). -/
def crawlIter (w : World) (cfg : Config) : Nat → CrawlState → StepRes
  | 0, s => .ok s
  | n + 1, s =>
    if loopGuard w cfg s then
      match crawlStep w cfg s with
      | .ok s1 => crawlIter w cfg n s1
      | .crash s1 => .crash s1
    else .ok s

/-- Underlying state of a step result. -/
def stateOf : StepRes → CrawlState
  | .ok s => s
  | .crash s => s

/-- State after `n` iterations from the initial state. -/
def iterState (w : World) (cfg : Config) (n : Nat) : CrawlState :=
  stateOf (crawlIter w cfg n (initState w cfg))

/-- Outcome of a whole `crawl_site_to_markdown` call. -/
inductive RunResult where
  | crashed (s : CrawlState)
  | outOfFuel (s : CrawlState)
  | finished (s : CrawlState) (finalSaveAttempted : Bool)

/-- The whole call: loop to completion, write `index.md` (not inside a try:
failure crashes), then the final `_save_state` — which is guarded by
`os.path.exists(checkpoint_file)` (lines 343–348). -/
def crawlRun (w : World) (cfg : Config) (fuel : Nat) : RunResult :=
  match crawlIter w cfg fuel (initState w cfg) with
  | .crash s => .crashed s
  | .ok s =>
    if loopGuard w cfg s then .outOfFuel s
    else if !w.indexWriteOk then .crashed s
    else if s.checkpointExists then .finished (saveState w s) true
    else .finished s false

/-- Underlying state of a run result. -/
def runState : RunResult → CrawlState
  | .crashed s => s
  | .outOfFuel s => s
  | .finished s _ => s

/-- Whether the run ended in an escaped exception. -/
def runCrashed : RunResult → Bool
  | .crashed _ => true
  | _ => false

/-- Whether the final checkpoint save was reached (`none` when the run
crashed or ran out of fuel). -/
def runFinalSave : RunResult → Option Bool
  | .finished _ b => some b
  | _ => none

/-- Test world: one page at `https://example.com/` linking `a.css?x=1`. -/
def wTest : World where
  robotsReadOk := true
  canFetch := fun _ _ => true
  fetch := fun u =>
    if u = str ("https://example.com/") then some ⟨none, [], [str ("a.css?x=1")]⟩ else none
  pageWriteOk := fun _ => true
  assetFetchOk := fun _ => true
  assetMkdirOk := fun _ => true
  assetWriteOk := fun _ => true
  indexWriteOk := true
  checkpointOnDisk := none
  saveOk := fun _ => true
  shutdownAt := fun _ => false

/-- Test config for `wTest`. -/
def cfgTest : Config :=
  ⟨str ("https://example.com/"), str ("out"), 5, false, str ("bot"), false, 10⟩

/-! ### Predicates used by the claim statements -/

/-- All crawl-state fields except the asset journal are unchanged (the asset
loops only touch `assetGets`/`assetWrites`). -/
def preservesPage (t s : CrawlState) : Prop :=
  t.to_visit = s.to_visit ∧ t.visited = s.visited ∧
  t.discovered_titles = s.discovered_titles ∧ t.pages_done = s.pages_done ∧
  t.iter = s.iter ∧ t.checkpointExists = s.checkpointExists ∧
  t.saveAttempts = s.saveAttempts ∧ t.savedDocs = s.savedDocs ∧
  t.pageGets = s.pageGets ∧ t.robotsDeniedAtDequeue = s.robotsDeniedAtDequeue ∧
  t.pageWrites = s.pageWrites

/-- All crawl-state fields except the frontier are unchanged (link discovery
only appends to `to_visit`). -/
def preservesEnq (t s : CrawlState) : Prop :=
  t.visited = s.visited ∧ t.discovered_titles = s.discovered_titles ∧
  t.pages_done = s.pages_done ∧ t.iter = s.iter ∧
  t.checkpointExists = s.checkpointExists ∧ t.saveAttempts = s.saveAttempts ∧
  t.savedDocs = s.savedDocs ∧ t.pageGets = s.pageGets ∧
  t.robotsDeniedAtDequeue = s.robotsDeniedAtDequeue ∧ t.pageWrites = s.pageWrites ∧
  t.assetGets = s.assetGets ∧ t.assetWrites = s.assetWrites

/-- The checkpoint file exists iff it existed at startup (`e`) or some
`_save_state` call succeeded during the run. -/
def ckptInv (e : Bool) (s : CrawlState) : Prop :=
  s.checkpointExists = (e || !s.savedDocs.isEmpty)

/-- Robots-gate bookkeeping: every page GET passed the gate, page GETs and
dequeue-time denials are marked visited, and a dequeue-time denial is never
fetched. -/
structure RobotsInv (w : World) (cfg : Config) (s : CrawlState) : Prop where
  gets_allowed : ∀ u ∈ s.pageGets, robotsActive w cfg = true → w.canFetch cfg.user_agent u = true
  gets_visited : ∀ u ∈ s.pageGets, u ∈ s.visited
  denied_visited : ∀ u ∈ s.robotsDeniedAtDequeue, u ∈ s.visited
  denied_not_fetched : ∀ u ∈ s.robotsDeniedAtDequeue, u ∉ s.pageGets

/-- The loop has come to a stop within the given iteration budget: either an
exception escaped, or the `while` condition is false. -/
def loopHalted (w : World) (cfg : Config) : StepRes → Prop
  | .crash _ => True
  | .ok s => loopGuard w cfg s = false

/-- What governs the final `_save_state`: on a normally finished run it is
attempted exactly when the checkpoint file existed at startup or a periodic
save succeeded; a crashed (or fuel-starved) run never reaches it. -/
def finalSaveLaw (w : World) : RunResult → Prop
  | .finished s b => b = (w.checkpointOnDisk.isSome || !s.savedDocs.isEmpty)
  | _ => True

/-! ### Concrete worlds and configurations for the counterexamples/witnesses -/

/-- An all-permissive filesystem/robots oracle with no pages; worlds below
override the interesting fields. -/
def wBase : World where
  robotsReadOk := true
  canFetch := fun _ _ => true
  fetch := fun _ => none
  pageWriteOk := fun _ => true
  assetFetchOk := fun _ => true
  assetMkdirOk := fun _ => true
  assetWriteOk := fun _ => true
  indexWriteOk := true
  checkpointOnDisk := none
  saveOk := fun _ => true
  shutdownAt := fun _ => false

/-- C3: one page, no links, checkpoint file absent, `save_every = 10`. -/
def wC3 : World :=
  { wBase with fetch := fun u =>
      if u = str ("https://e.com/") then some ⟨none, [], []⟩ else none }

/-- C3 config. -/
def cfgC3 : Config :=
  ⟨str ("https://e.com/"), str ("out"), 5, false, str ("bot"), false, 10⟩

/-- C5: the seed links `/a` and `/b`; writing `out/a.md` fails. -/
def wC5 : World :=
  { wBase with
    fetch := fun u =>
      if u = str ("https://e.com/") then some ⟨none, [], [str ("/a"), str ("/b")]⟩
      else if u = str ("https://e.com/a") then some ⟨none, [], []⟩
      else none,
    pageWriteOk := fun p => !(p = str ("out/a.md")) }

/-- C5 config. -/
def cfgC5 : Config :=
  ⟨str ("https://e.com/"), str ("out"), 5, false, str ("bot"), false, 10⟩

/-- C1: same failing-write scenario as C5 (kept separate per claim). -/
def wC1 : World :=
  { wBase with
    fetch := fun u =>
      if u = str ("https://e.com/") then some ⟨none, [], [str ("/a"), str ("/b")]⟩
      else if u = str ("https://e.com/a") then some ⟨none, [], []⟩
      else none,
    pageWriteOk := fun p => !(p = str ("out/a.md")) }

/-- C1 config. -/
def cfgC1 : Config :=
  ⟨str ("https://e.com/"), str ("out"), 5, false, str ("bot"), false, 10⟩

/-- C4: robots deny `https://e.com/blocked`, which the seed page links. -/
def wC4 : World :=
  { wBase with
    canFetch := fun _ u => !(u = str ("https://e.com/blocked")),
    fetch := fun u =>
      if u = str ("https://e.com/") then some ⟨none, [], [str ("/blocked")]⟩ else none }

/-- C4 config (robots compliance enabled). -/
def cfgC4 : Config :=
  ⟨str ("https://e.com/"), str ("out"), 5, true, str ("bot"), false, 10⟩

/-- C9: non-canonical seed `https://e.com/#top` whose page links `/`. -/
def wC9 : World :=
  { wBase with
    fetch := fun u =>
      if u = str ("https://e.com/#top") then some ⟨none, [], [str ("/")]⟩
      else if u = str ("https://e.com/") then some ⟨none, [], []⟩
      else none }

/-- C9 config. -/
def cfgC9 : Config :=
  ⟨str ("https://e.com/#top"), str ("out"), 5, false, str ("bot"), false, 10⟩

/-- C10: robots deny everything; the asset lives on a different origin. -/
def wC10 : World :=
  { wBase with
    canFetch := fun _ _ => false,
    fetch := fun u =>
      if u = str ("https://e.com/x") then
        some ⟨none, [str ("https://other.com/pic.png")], []⟩
      else none }

/-- C10 config (robots compliance enabled, seed on `e.com`). -/
def cfgC10 : Config :=
  ⟨str ("https://e.com/x"), str ("out"), 5, true, str ("bot"), false, 10⟩

/-- C2: a mid-crawl state to checkpoint and restore. -/
def sC2 : CrawlState :=
  { to_visit := [str ("https://e.com/a"), str ("https://e.com/b")],
    visited := [str ("https://e.com/"), str ("https://e.com/c")],
    discovered_titles := [(str ("https://e.com/"), str ("Home")), (str ("https://e.com/c"), str ("C"))],
    pages_done := 2, iter := 2, checkpointExists := true, saveAttempts := 1,
    savedDocs := [], pageGets := [], assetGets := [], robotsDeniedAtDequeue := [],
    pageWrites := [], assetWrites := [] }

/-- C2: world whose on-disk checkpoint is the save of `sC2`. -/
def wC2 : World := { wBase with checkpointOnDisk := some (some (saveDocOf sC2)) }

/-- C2 config (resume enabled). -/
def cfgC2 : Config :=
  ⟨str ("https://e.com/"), str ("out"), 5, false, str ("bot"), true, 10⟩

/-- C6: a URL whose first path segment is 210 characters long. -/
def longDirTarget : Str :=
  str ("https://example.com/") ++ List.replicate 210 'a' ++ str ("/x")

/-! ### Sanity checks of the embedding on concrete inputs -/

example : urljoin (str ("https://example.com/a/b")) (str ("../c")) = str ("https://example.com/c") := by decide

example : urljoin (str ("https://example.com/")) (str ("about")) = str ("https://example.com/about") := by decide

example : urljoin (str ("https://example.com/x")) (str ("https://other.com/y#f")) = str ("https://other.com/y#f") := by decide

example : urlparsePy [] (str ("https://e.com/a/b;p?q=1&r=2#frag")) =
    ⟨str ("https"), str ("e.com"), str ("/a/b"), str ("p"), str ("q=1&r=2"), str ("frag")⟩ := by decide

example : urlparsePy [] (str ("HTTP://E.com")) = ⟨str ("http"), str ("E.com"), [], [], [], []⟩ := by decide

example : osSplit (str ("docs/intro.md")) = (str ("docs"), str ("intro.md")) := by decide

example : osSplitext (str ("a/..md")) = (str ("a/..md"), []) := by decide

example : osSplitext (str ("x.tar.gz")) = (str ("x.tar"), str (".gz")) := by decide

example : extRegexMatch IGNORED_EXTENSIONS (str ("style.CSS")) = true := by decide

example : extRegexMatch IGNORED_EXTENSIONS (str ("style.css?v=2")) = false := by decide

example : extRegexMatch ASSET_EXTENSIONS (str ("logo.png")) = true := by decide

example : isValidHref (str ("#top")) = false := by decide

example : isValidHref (str (" mailto:x@y")) = false := by decide

example : isValidHref (str ("archive.ZIP")) = false := by decide

example : isValidHref (str ("/about")) = true := by decide

example : sha1Hexdigest (utf8Bytes (str ("abc"))) =
    str ("a9993e364706816aba3e25717850c26c9cd0d89d") := by decide

example : safeFilenameFromUrl (str ("https://example.com/")) (str ("https://example.com/")) =
    str ("index.md") := by decide

example : safeFilenameFromUrl (str ("https://example.com/")) (str ("https://example.com/docs/intro")) =
    str ("docs/intro.md") := by decide

example : safeFilenameFromUrl (str ("https://example.com/")) (str ("https://example.com/?q=query")) =
    str ("index__q_query.md") := by decide

example : safeAssetPath (str ("out/assets")) (str ("https://e.com/x"))
    (str ("https://other.com/logo.png")) = str ("out/assets/other.com/logo.png") := by decide

example : (iterState wTest cfgTest 1).to_visit = [str ("https://example.com/a.css?x=1")] := by
  decide

example : (iterState wTest cfgTest 1).visited = [str ("https://example.com/")] := by decide

/-! ### Preservation lemmas for the pipeline components -/

theorem preservesPage_refl (s : CrawlState) : preservesPage s s := by
  unfold preservesPage
  exact ⟨rfl, rfl, rfl, rfl, rfl, rfl, rfl, rfl, rfl, rfl, rfl⟩

theorem preservesPage_trans {a b c : CrawlState}
    (h1 : preservesPage b c) (h2 : preservesPage a b) : preservesPage a c := by
  obtain ⟨x1, x2, x3, x4, x5, x6, x7, x8, x9, x10, x11⟩ := h2
  obtain ⟨y1, y2, y3, y4, y5, y6, y7, y8, y9, y10, y11⟩ := h1
  exact ⟨x1.trans y1, x2.trans y2, x3.trans y3, x4.trans y4, x5.trans y5, x6.trans y6,
    x7.trans y7, x8.trans y8, x9.trans y9, x10.trans y10, x11.trans y11⟩

theorem downloadAsset_pres (w : World) (cfg : Config) (pu : Str) (s : CrawlState) (r : Str) :
    preservesPage (stateOf (downloadAsset w cfg pu s r)) s := by
  simp only [downloadAsset]
  repeat' split
  all_goals simp [preservesPage, stateOf]

theorem foldAssets_pres (f : CrawlState → Str → StepRes)
    (hf : ∀ st x, preservesPage (stateOf (f st x)) st) :
    ∀ (l : List Str) (s : CrawlState), preservesPage (stateOf (foldAssets f s l)) s := by
  intro l
  induction l with
  | nil => intro s; exact preservesPage_refl s
  | cons x xs ih =>
    intro s
    have h := hf s x
    cases hfx : f s x with
    | ok s1 =>
      rw [hfx] at h
      simpa [foldAssets, hfx] using preservesPage_trans h (ih s1)
    | crash s1 =>
      rw [hfx] at h
      simpa [foldAssets, hfx, stateOf] using h

theorem processImgs_pres (w : World) (cfg : Config) (pu : Str) (s : CrawlState)
    (srcs : List Str) : preservesPage (stateOf (processImgs w cfg pu s srcs)) s := by
  apply foldAssets_pres
  intro st x
  dsimp only
  split
  · exact preservesPage_refl st
  · split
    · exact downloadAsset_pres w cfg pu st x
    · exact preservesPage_refl st

theorem processHrefAssets_pres (w : World) (cfg : Config) (pu : Str) (s : CrawlState)
    (hrefs : List Str) : preservesPage (stateOf (processHrefAssets w cfg pu s hrefs)) s := by
  apply foldAssets_pres
  intro st x
  dsimp only
  split
  · exact preservesPage_refl st
  · split
    · exact downloadAsset_pres w cfg pu st x
    · exact preservesPage_refl st

theorem preservesEnq_refl (s : CrawlState) : preservesEnq s s := by
  unfold preservesEnq
  exact ⟨rfl, rfl, rfl, rfl, rfl, rfl, rfl, rfl, rfl, rfl, rfl, rfl⟩

theorem preservesEnq_trans {a b c : CrawlState}
    (h1 : preservesEnq b c) (h2 : preservesEnq a b) : preservesEnq a c := by
  obtain ⟨x1, x2, x3, x4, x5, x6, x7, x8, x9, x10, x11, x12⟩ := h2
  obtain ⟨y1, y2, y3, y4, y5, y6, y7, y8, y9, y10, y11, y12⟩ := h1
  exact ⟨x1.trans y1, x2.trans y2, x3.trans y3, x4.trans y4, x5.trans y5, x6.trans y6,
    x7.trans y7, x8.trans y8, x9.trans y9, x10.trans y10, x11.trans y11, x12.trans y12⟩

theorem enqueueLink_pres (w : World) (cfg : Config) (pu : Str) (s : CrawlState) (href : Str) :
    preservesEnq (enqueueLink w cfg pu s href) s := by
  simp only [enqueueLink]
  repeat' split
  all_goals simp [preservesEnq]

theorem foldl_enqueue_pres (w : World) (cfg : Config) (pu : Str) :
    ∀ (l : List Str) (s : CrawlState), preservesEnq (l.foldl (enqueueLink w cfg pu) s) s := by
  intro l
  induction l with
  | nil => intro s; exact preservesEnq_refl s
  | cons x xs ih =>
    intro s
    exact preservesEnq_trans (enqueueLink_pres w cfg pu s x) (ih (enqueueLink w cfg pu s x))

theorem saveState_core (w : World) (s : CrawlState) :
    (saveState w s).to_visit = s.to_visit ∧ (saveState w s).visited = s.visited ∧
    (saveState w s).pageGets = s.pageGets ∧
    (saveState w s).robotsDeniedAtDequeue = s.robotsDeniedAtDequeue := by
  simp [saveState]

theorem saveState_ckptInv (w : World) {e : Bool} {s : CrawlState} (h : ckptInv e s) :
    ckptInv e (saveState w s) := by
  unfold ckptInv at *
  simp only [saveState]
  cases hok : w.saveOk s.saveAttempts with
  | false => simpa using h
  | true =>
    have hne : (s.savedDocs ++ [saveDocOf s]).isEmpty = false := by
      cases s.savedDocs <;> rfl
    simp [h, hne]

theorem renderAndDiscover_fields (w : World) (cfg : Config) (url : Str) (page : Page)
    (s : CrawlState) :
    (stateOf (renderAndDiscover w cfg url page s)).visited = s.visited ∧
    (stateOf (renderAndDiscover w cfg url page s)).pageGets = s.pageGets ∧
    (stateOf (renderAndDiscover w cfg url page s)).robotsDeniedAtDequeue =
      s.robotsDeniedAtDequeue ∧
    (∀ e, ckptInv e s → ckptInv e (stateOf (renderAndDiscover w cfg url page s))) := by
  unfold renderAndDiscover
  cases himg : processImgs w cfg url s page.imgSrcs with
  | crash sc =>
    have h := processImgs_pres w cfg url s page.imgSrcs
    rw [himg] at h
    simp only [stateOf] at h ⊢
    obtain ⟨h1, h2, h3, h4, h5, h6, h7, h8, h9, h10, h11⟩ := h
    exact ⟨h2, h9, h10, fun e he => by unfold ckptInv at *; rw [h6, h8]; exact he⟩
  | ok s4 =>
    have h := processImgs_pres w cfg url s page.imgSrcs
    rw [himg] at h
    simp only [stateOf] at h
    dsimp only
    cases hh : processHrefAssets w cfg url s4 page.hrefs with
    | crash sc =>
      have h' := processHrefAssets_pres w cfg url s4 page.hrefs
      rw [hh] at h'
      simp only [stateOf] at h'
      have hc := preservesPage_trans h h'
      simp only [stateOf]
      obtain ⟨h1, h2, h3, h4, h5, h6, h7, h8, h9, h10, h11⟩ := hc
      exact ⟨h2, h9, h10, fun e he => by unfold ckptInv at *; rw [h6, h8]; exact he⟩
    | ok s5 =>
      have h' := processHrefAssets_pres w cfg url s4 page.hrefs
      rw [hh] at h'
      simp only [stateOf] at h'
      have hc := preservesPage_trans h h'
      obtain ⟨h1, h2, h3, h4, h5, h6, h7, h8, h9, h10, h11⟩ := hc
      dsimp only
      split
      · simp only [stateOf]
        exact ⟨h2, h9, h10, fun e he => by unfold ckptInv at *; rw [h6, h8]; exact he⟩
      · have he := foldl_enqueue_pres w cfg url page.hrefs
          { s5 with pageWrites := s5.pageWrites ++
              [osJoin cfg.output_dir (safeFilenameFromUrl cfg.start_url url)] }
        obtain ⟨e1, e2, e3, e4, e5, e6, e7, e8, e9, e10, e11, e12⟩ := he
        simp only [stateOf]
        split
        · refine ⟨?_, ?_, ?_, ?_⟩
          · rw [(saveState_core w _).2.1]; simp only [e1]; exact h2
          · rw [(saveState_core w _).2.2.1]; simp only [e8]; exact h9
          · rw [(saveState_core w _).2.2.2]; simp only [e9]; exact h10
          · intro e he'
            apply saveState_ckptInv
            unfold ckptInv at *
            simp only [e5, e7]
            rw [h6, h8]
            exact he'
        · refine ⟨?_, ?_, ?_, ?_⟩
          · simp only [e1]; exact h2
          · simp only [e8]; exact h9
          · simp only [e9]; exact h10
          · intro e he'
            unfold ckptInv at *
            simp only [e5, e7]
            rw [h6, h8]
            exact he'

theorem fetchAndProcess_fields (w : World) (cfg : Config) (url : Str) (s : CrawlState) :
    (stateOf (fetchAndProcess w cfg url s)).visited = s.visited ++ [url] ∧
    (stateOf (fetchAndProcess w cfg url s)).pageGets = s.pageGets ++ [url] ∧
    (stateOf (fetchAndProcess w cfg url s)).robotsDeniedAtDequeue = s.robotsDeniedAtDequeue ∧
    (∀ e, ckptInv e s → ckptInv e (stateOf (fetchAndProcess w cfg url s))) := by
  unfold fetchAndProcess
  cases hf : w.fetch url with
  | none =>
    dsimp only
    exact ⟨rfl, rfl, rfl, fun e he => he⟩
  | some page =>
    dsimp only
    refine ⟨?_, ?_, ?_, ?_⟩
    · exact (renderAndDiscover_fields w cfg url page _).1
    · exact (renderAndDiscover_fields w cfg url page _).2.1
    · exact (renderAndDiscover_fields w cfg url page _).2.2.1
    · exact fun e he => (renderAndDiscover_fields w cfg url page _).2.2.2 e he

theorem crawlStep_visited_len (w : World) (cfg : Config) (s : CrawlState) :
    (stateOf (crawlStep w cfg s)).visited.length ≤ s.visited.length + 1 := by
  unfold crawlStep
  cases hv : s.to_visit with
  | nil => simp [stateOf]
  | cons url rest =>
    dsimp only
    split
    · simp [stateOf]
    · split
      · simp [stateOf]
      · rw [(fetchAndProcess_fields w cfg url _).1]
        simp

theorem crawlStep_ok_cases (w : World) (cfg : Config) {s s' : CrawlState} {url : Str}
    {rest : List Str} (hv : s.to_visit = url :: rest) (h : crawlStep w cfg s = .ok s') :
    s'.visited.length = s.visited.length + 1 ∨ (s'.visited = s.visited ∧ s'.to_visit = rest) := by
  unfold crawlStep at h
  rw [hv] at h
  dsimp only at h
  split at h
  · cases h
    exact Or.inr ⟨rfl, rfl⟩
  · split at h
    · cases h
      simp
    · have hfield := (fetchAndProcess_fields w cfg url { s with to_visit := rest, iter := s.iter + 1 }).1
      rw [h] at hfield
      simp only [stateOf] at hfield
      left
      rw [hfield]
      simp

theorem crawlStep_ckptInv (w : World) (cfg : Config) {e : Bool} {s : CrawlState}
    (h : ckptInv e s) : ckptInv e (stateOf (crawlStep w cfg s)) := by
  unfold crawlStep
  cases hv : s.to_visit with
  | nil => exact h
  | cons url rest =>
    dsimp only
    split
    · exact h
    · split
      · exact h
      · exact (fetchAndProcess_fields w cfg url _).2.2.2 e h

theorem crawlStep_robotsInv (w : World) (cfg : Config) {s : CrawlState}
    (h : RobotsInv w cfg s) : RobotsInv w cfg (stateOf (crawlStep w cfg s)) := by
  unfold crawlStep
  cases hv : s.to_visit with
  | nil => exact h
  | cons url rest =>
    dsimp only
    split
    · exact ⟨h.gets_allowed, h.gets_visited, h.denied_visited, h.denied_not_fetched⟩
    · rename_i hmem
      split
      · rename_i hrob
        refine ⟨?_, ?_, ?_, ?_⟩
        · exact fun u hu ha => h.gets_allowed u hu ha
        · exact fun u hu => List.mem_append_left _ (h.gets_visited u hu)
        · intro u hu
          rcases List.mem_append.mp hu with hu' | hu'
          · exact List.mem_append_left _ (h.denied_visited u hu')
          · exact List.mem_append_right _ hu'
        · intro u hu
          rcases List.mem_append.mp hu with hu' | hu'
          · exact h.denied_not_fetched u hu'
          · rw [List.mem_singleton] at hu'
            subst hu'
            intro hg
            exact hmem (h.gets_visited u hg)
      · rename_i hrob
        have hcan : robotsActive w cfg = true → w.canFetch cfg.user_agent url = true := by
          intro ha
          by_contra hb
          exact hrob (by simp [ha, Bool.not_eq_true _ ▸ hb, eq_false_of_ne_true hb])
        have hfield := fetchAndProcess_fields w cfg url { s with to_visit := rest, iter := s.iter + 1 }
        have hV := hfield.1
        have hG := hfield.2.1
        have hD := hfield.2.2.1
        dsimp only at hV hG hD
        refine ⟨?_, ?_, ?_, ?_⟩
        · rw [hG]
          intro u hu ha
          rcases List.mem_append.mp hu with hu' | hu'
          · exact h.gets_allowed u hu' ha
          · rw [List.mem_singleton] at hu'
            subst hu'
            exact hcan ha
        · rw [hG, hV]
          intro u hu
          rcases List.mem_append.mp hu with hu' | hu'
          · exact List.mem_append_left _ (h.gets_visited u hu')
          · exact List.mem_append_right _ hu'
        · rw [hD, hV]
          exact fun u hu => List.mem_append_left _ (h.denied_visited u hu)
        · rw [hD, hG]
          intro u hu hg
          rcases List.mem_append.mp hg with hg' | hg'
          · exact h.denied_not_fetched u hu hg'
          · rw [List.mem_singleton] at hg'
            subst hg'
            exact hmem (h.denied_visited u hu)

/-! ### Iterating the loop -/

theorem crawlIter_guard_false (w : World) (cfg : Config) {s : CrawlState}
    (hg : loopGuard w cfg s = false) (n : Nat) : crawlIter w cfg n s = .ok s := by
  cases n with
  | zero => rfl
  | succ n => unfold crawlIter; simp [hg]

theorem crawlIter_succ_ok (w : World) (cfg : Config) {s s1 : CrawlState} {n : Nat}
    (hg : loopGuard w cfg s = true) (hstep : crawlStep w cfg s = .ok s1) :
    crawlIter w cfg (n + 1) s = crawlIter w cfg n s1 := by
  conv_lhs => unfold crawlIter
  simp [hg, hstep]

theorem crawlIter_succ_crash (w : World) (cfg : Config) {s s1 : CrawlState} {n : Nat}
    (hg : loopGuard w cfg s = true) (hstep : crawlStep w cfg s = .crash s1) :
    crawlIter w cfg (n + 1) s = .crash s1 := by
  conv_lhs => unfold crawlIter
  simp [hg, hstep]

theorem crawlIter_pres (w : World) (cfg : Config) (P : CrawlState → Prop)
    (hP : ∀ s, loopGuard w cfg s = true → P s → P (stateOf (crawlStep w cfg s))) :
    ∀ (n : Nat) (s : CrawlState), P s → P (stateOf (crawlIter w cfg n s)) := by
  intro n
  induction n with
  | zero => intro s hs; exact hs
  | succ n ih =>
    intro s hs
    unfold crawlIter
    split
    · rename_i hg
      cases hstep : crawlStep w cfg s with
      | ok s1 =>
        have h1 := hP s hg hs
        rw [hstep] at h1
        exact ih s1 h1
      | crash s1 =>
        have h1 := hP s hg hs
        rw [hstep] at h1
        exact h1
    · exact hs

theorem loopGuard_spec {w : World} {cfg : Config} {s : CrawlState}
    (hg : loopGuard w cfg s = true) :
    s.to_visit ≠ [] ∧ s.visited.length < cfg.max_pages ∧ w.shutdownAt s.iter = false := by
  simp only [loopGuard, Bool.and_eq_true] at hg
  obtain ⟨⟨h1, h2⟩, h3⟩ := hg
  refine ⟨?_, of_decide_eq_true h2, ?_⟩
  · intro hnil
    rw [hnil] at h1
    simp at h1
  · cases hsh : w.shutdownAt s.iter with
    | false => rfl
    | true => rw [hsh] at h3; simp at h3

theorem loopGuard_true_of (w : World) (cfg : Config) {s : CrawlState}
    (h1 : s.to_visit ≠ []) (h2 : s.visited.length < cfg.max_pages)
    (h3 : w.shutdownAt s.iter = false) : loopGuard w cfg s = true := by
  unfold loopGuard
  cases hv : s.to_visit with
  | nil => exact absurd hv h1
  | cons a t => simp [hv, h2, h3]

theorem crawlIter_one (w : World) (cfg : Config) {s : CrawlState}
    (hg : loopGuard w cfg s = true) :
    stateOf (crawlIter w cfg 1 s) = stateOf (crawlStep w cfg s) := by
  unfold crawlIter
  rw [if_pos hg]
  cases crawlStep w cfg s <;> rfl

/-! ### Termination of the crawl loop -/

theorem haltsFrom (w : World) (cfg : Config) : ∀ (a b : Nat) (s : CrawlState),
    cfg.max_pages - s.visited.length ≤ a → s.to_visit.length ≤ b →
    ∃ n, loopHalted w cfg (crawlIter w cfg n s) := by
  intro a
  induction a with
  | zero =>
    intro b s ha _
    refine ⟨0, ?_⟩
    show loopGuard w cfg s = false
    unfold loopGuard
    have hnot : ¬ (s.visited.length < cfg.max_pages) := by omega
    simp [hnot]
  | succ a iha =>
    intro b
    induction b with
    | zero =>
      intro s _ hb
      refine ⟨0, ?_⟩
      show loopGuard w cfg s = false
      have hnil : s.to_visit = [] := List.eq_nil_of_length_eq_zero (Nat.le_zero.mp hb)
      simp [loopGuard, hnil]
    | succ b ihb =>
      intro s ha hb
      by_cases hg : loopGuard w cfg s = true
      · obtain ⟨hne, hlt, _⟩ := loopGuard_spec hg
        obtain ⟨url, rest, hv⟩ : ∃ u r, s.to_visit = u :: r := by
          cases hto : s.to_visit with
          | nil => exact absurd hto hne
          | cons u r => exact ⟨u, r, rfl⟩
        cases hstep : crawlStep w cfg s with
        | crash s1 =>
          exact ⟨1, by rw [crawlIter_succ_crash w cfg hg hstep]; trivial⟩
        | ok s1 =>
          rcases crawlStep_ok_cases w cfg hv hstep with hlen | ⟨hveq, htv⟩
          · obtain ⟨n, hn⟩ := iha s1.to_visit.length s1 (by omega) (le_refl _)
            exact ⟨n + 1, by rw [crawlIter_succ_ok w cfg hg hstep]; exact hn⟩
          · have hr : rest.length ≤ b := by
              rw [hv] at hb
              simp only [List.length_cons] at hb
              omega
            obtain ⟨n, hn⟩ := ihb s1 (by rw [hveq]; exact ha) (by rw [htv]; exact hr)
            exact ⟨n + 1, by rw [crawlIter_succ_ok w cfg hg hstep]; exact hn⟩
      · exact ⟨0, eq_false_of_ne_true hg⟩

/-! ### Supporting lemmas for the claims -/

theorem initState_ckptInv (w : World) (cfg : Config) :
    ckptInv w.checkpointOnDisk.isSome (initState w cfg) := by
  unfold ckptInv initState applyLoad freshState
  split
  · split <;> simp
  · simp

theorem initState_journals (w : World) (cfg : Config) :
    (initState w cfg).pageGets = [] ∧ (initState w cfg).robotsDeniedAtDequeue = [] := by
  unfold initState applyLoad freshState
  split
  · split <;> simp
  · simp

theorem initState_robotsInv (w : World) (cfg : Config) : RobotsInv w cfg (initState w cfg) := by
  obtain ⟨hg, hd⟩ := initState_journals w cfg
  refine ⟨?_, ?_, ?_, ?_⟩
  · rw [hg]; intro u hu; exact absurd hu (List.not_mem_nil u)
  · rw [hg]; intro u hu; exact absurd hu (List.not_mem_nil u)
  · rw [hd]; intro u hu; exact absurd hu (List.not_mem_nil u)
  · rw [hd]; intro u hu; exact absurd hu (List.not_mem_nil u)

theorem enqueueLink_invalid (w : World) (cfg : Config) (pu : Str) (s : CrawlState) {href : Str}
    (h : isValidHref href = false) : enqueueLink w cfg pu s href = s := by
  unfold enqueueLink
  simp [h]

theorem pyDictUpdate_disjoint :
    ∀ (l acc : List (Str × Str)), (l.map Prod.fst).Nodup →
      (∀ k ∈ l.map Prod.fst, k ∉ acc.map Prod.fst) → pyDictUpdate acc l = acc ++ l := by
  intro l
  induction l with
  | nil => intro acc _ _; simp [pyDictUpdate]
  | cons kv t ih =>
    intro acc hnd hdis
    obtain ⟨k, v⟩ := kv
    have hk : k ∉ acc.map Prod.fst := hdis k (by simp)
    have h1 : pyDictInsert acc k v = acc ++ [(k, v)] := by simp [pyDictInsert, hk]
    have hstep : pyDictUpdate acc ((k, v) :: t) = pyDictUpdate (acc ++ [(k, v)]) t := by
      unfold pyDictUpdate
      simp only [List.foldl_cons]
      rw [h1]
    rw [hstep]
    have hnd' : (t.map Prod.fst).Nodup := (List.nodup_cons.mp (by simpa using hnd)).2
    have hknott : k ∉ t.map Prod.fst := (List.nodup_cons.mp (by simpa using hnd)).1
    have hdis' : ∀ k' ∈ t.map Prod.fst, k' ∉ (acc ++ [(k, v)]).map Prod.fst := by
      intro k' hk'
      simp only [List.map_append, List.mem_append]
      rintro (hc | hc)
      · exact hdis k' (by simp [hk']) hc
      · simp at hc
        subst hc
        exact hknott hk'
    rw [ih (acc ++ [(k, v)]) hnd' hdis']
    simp

/-! ### The claims -/

/-- C1 (amended): the crawl loop always comes to a stop — the frontier
measure `(max_pages - |visited|, |to_visit|)` decreases at every iteration —
the visited set never exceeds `max(max_pages, initial visited size)` (the
initial size is 0 except for a resumed checkpoint), and when the loop exits
without an escaped exception the exit happens exactly at a failed loop
condition: frontier empty, page budget reached, or shutdown flag set.  (An
unhandled page-write error can also abort the loop early; see the
counterexample.) -/
theorem C1_loop_terminates_within_budget : ∀ (w : World) (cfg : Config),
    (∃ n, loopHalted w cfg (crawlIter w cfg n (initState w cfg))) ∧
    (∀ n, (iterState w cfg n).visited.length ≤
      max cfg.max_pages (initState w cfg).visited.length) ∧
    (∀ n s, crawlIter w cfg n (initState w cfg) = .ok s → loopGuard w cfg s = false →
      s.to_visit = [] ∨ cfg.max_pages ≤ s.visited.length ∨ w.shutdownAt s.iter = true) := by
  intro w cfg
  refine ⟨haltsFrom w cfg _ _ (initState w cfg) (le_refl _) (le_refl _), ?_, ?_⟩
  · intro n
    have hP : ∀ s, loopGuard w cfg s = true →
        s.visited.length ≤ max cfg.max_pages (initState w cfg).visited.length →
        (stateOf (crawlStep w cfg s)).visited.length ≤
          max cfg.max_pages (initState w cfg).visited.length := by
      intro s hg _
      obtain ⟨_, hlt, _⟩ := loopGuard_spec hg
      have hstep := crawlStep_visited_len w cfg s
      have hmax := le_max_left cfg.max_pages (initState w cfg).visited.length
      omega
    exact crawlIter_pres w cfg _ hP n _ (le_max_right _ _)
  · intro n s _ hg
    by_cases h1 : s.to_visit = []
    · exact Or.inl h1
    by_cases h2 : cfg.max_pages ≤ s.visited.length
    · exact Or.inr (Or.inl h2)
    refine Or.inr (Or.inr ?_)
    by_contra h3
    have hgt := loopGuard_true_of w cfg h1 (Nat.not_le.mp h2) (eq_false_of_ne_true h3)
    rw [hg] at hgt
    simp at hgt

/-- C1 counterexample: with a failing page write the loop stops by an escaped
exception while all three continue-conditions still hold (frontier nonempty,
budget not reached, no shutdown), so "stops exactly when one of the three
conditions holds" is false as stated. -/
theorem C1_stops_early_on_write_error :
    runCrashed (crawlRun wC1 cfgC1 10) = true ∧
    loopGuard wC1 cfgC1 (runState (crawlRun wC1 cfgC1 10)) = true := by decide

/-- C1 witness: the "stops exactly at a failed loop condition" direction
applied to a concrete completed run. -/
theorem C1_witness_instance :
    crawlIter wTest cfgTest 5 (initState wTest cfgTest) = .ok (iterState wTest cfgTest 5) ∧
    loopGuard wTest cfgTest (iterState wTest cfgTest 5) = false ∧
    ((iterState wTest cfgTest 5).to_visit = [] ∨
      cfgTest.max_pages ≤ (iterState wTest cfgTest 5).visited.length ∨
      wTest.shutdownAt (iterState wTest cfgTest 5).iter = true) :=
  ⟨by decide, by decide,
    (C1_loop_terminates_within_budget wTest cfgTest).2.2 5 _ (by decide) (by decide)⟩

/-- C2: the checkpoint round-trip law — saving a crawl state and loading the
saved document back at a fresh start reproduces the frontier list, the
visited set and the title index exactly (the in-memory state has no duplicate
visited entries and no duplicate title keys, which every reachable state
satisfies). -/
theorem C2_checkpoint_roundtrip : ∀ (w : World) (cfg : Config) (s : CrawlState),
    s.visited.Nodup → (s.discovered_titles.map Prod.fst).Nodup →
    cfg.resume = true → w.checkpointOnDisk = some (some (saveDocOf s)) →
    (initState w cfg).to_visit = s.to_visit ∧ (initState w cfg).visited = s.visited ∧
    (initState w cfg).discovered_titles = s.discovered_titles := by
  intro w cfg s hnd hndk hres hdisk
  unfold initState
  rw [hres, hdisk]
  simp only [if_true]
  unfold applyLoad saveDocOf freshState
  refine ⟨rfl, ?_, ?_⟩
  · exact List.Nodup.dedup hnd
  · exact pyDictUpdate_disjoint s.discovered_titles [] hndk (by simp)

/-- C2 witness: the round trip at a concrete mid-crawl state. -/
theorem C2_roundtrip_witness :
    (initState wC2 cfgC2).to_visit = sC2.to_visit ∧
    (initState wC2 cfgC2).visited = sC2.visited ∧
    (initState wC2 cfgC2).discovered_titles = sC2.discovered_titles :=
  C2_checkpoint_roundtrip wC2 cfgC2 sC2 (by decide) (by decide) rfl rfl

/-- C3 (amended): after the loop, the final `_save_state` is attempted iff
the checkpoint file exists at that moment — i.e. iff it was on disk at
startup or some periodic save succeeded during the run; it is not
unconditional.  A run aborted by an escaped exception (or out of fuel)
never reaches it. -/
theorem C3_final_save_guarded_by_existence (w : World) (cfg : Config) (fuel : Nat) :
    finalSaveLaw w (crawlRun w cfg fuel) := by
  unfold crawlRun
  have h := crawlIter_pres w cfg (ckptInv w.checkpointOnDisk.isSome)
    (fun s _ hs => crawlStep_ckptInv w cfg hs) fuel (initState w cfg)
    (initState_ckptInv w cfg)
  cases hiter : crawlIter w cfg fuel (initState w cfg) with
  | crash s => trivial
  | ok s =>
    rw [hiter] at h
    simp only [stateOf] at h
    dsimp only
    split
    · trivial
    · split
      · trivial
      · split
        · rename_i hex
          show (true = _)
          unfold ckptInv at h
          rw [hex] at h
          cases he : w.checkpointOnDisk.isSome with
          | true => rfl
          | false =>
            rw [he] at h
            simp only [Bool.false_or] at h
            have h2 : s.savedDocs ≠ [] := by
              intro hnil
              rw [hnil] at h
              simp at h
            have h3 : (saveState w s).savedDocs ≠ [] := by
              unfold saveState
              dsimp only
              split
              · intro hc
                exact h2 (List.append_eq_nil.mp hc).1
              · exact h2
            have h4 : (saveState w s).savedDocs.isEmpty = false := by
              cases hc : (saveState w s).savedDocs with
              | nil => exact absurd hc h3
              | cons a t => rfl
            rw [h4]
            rfl
        · rename_i hex
          show (false = _)
          unfold ckptInv at h
          have hexf : s.checkpointExists = false := by
            cases hc : s.checkpointExists with
            | false => rfl
            | true => exact absurd hc hex
          rw [hexf] at h
          exact h

/-- C3 counterexample: a run that exhausts its frontier after one page with
`save_every = 10` and no pre-existing checkpoint file finishes without any
final checkpoint save (`os.path.exists` gates the final `_save_state`). -/
theorem C3_no_final_save_on_fresh_run :
    runFinalSave (crawlRun wC3 cfgC3 3) = some false := by decide

/-- C4 (amended): a URL the robots gate denies at dequeue time is added to
the visited set and never fetched, and every page GET of a run passed the
gate; but a URL denied at link-discovery time is merely not enqueued — the
frontier and the visited set are left unchanged, so it is not remembered in
VisitedSet. -/
theorem C4_robots_denials : ∀ (w : World) (cfg : Config) (n : Nat),
    (∀ u ∈ (iterState w cfg n).pageGets,
      robotsActive w cfg = true → w.canFetch cfg.user_agent u = true) ∧
    (∀ u ∈ (iterState w cfg n).robotsDeniedAtDequeue,
      u ∈ (iterState w cfg n).visited ∧ u ∉ (iterState w cfg n).pageGets) ∧
    (∀ (pageUrl : Str) (s : CrawlState) (href : Str),
      robotsActive w cfg = true →
      w.canFetch cfg.user_agent (normalizeUrl (baseScheme cfg) (urljoin pageUrl href)) = false →
      (enqueueLink w cfg pageUrl s href).to_visit = s.to_visit ∧
      (enqueueLink w cfg pageUrl s href).visited = s.visited) := by
  intro w cfg n
  have hInv := crawlIter_pres w cfg (RobotsInv w cfg)
    (fun s _ hs => crawlStep_robotsInv w cfg hs) n (initState w cfg)
    (initState_robotsInv w cfg)
  refine ⟨hInv.gets_allowed, ?_, ?_⟩
  · exact fun u hu => ⟨hInv.denied_visited u hu, hInv.denied_not_fetched u hu⟩
  · intro pageUrl s href hra hcf
    unfold enqueueLink
    split
    · exact ⟨rfl, rfl⟩
    · dsimp only
      split
      · exact ⟨rfl, rfl⟩
      · simp [hra, hcf]

/-- C4 counterexample: `https://e.com/blocked` is denied by robots at
link-discovery time; after the crawl completes it was never fetched but is
NOT in the visited set, refuting "every URL the robots gate denies … is
added to the VisitedSet". -/
theorem C4_discovery_denial_not_visited :
    robotsActive wC4 cfgC4 = true ∧
    wC4.canFetch cfgC4.user_agent (str ("https://e.com/blocked")) = false ∧
    loopGuard wC4 cfgC4 (iterState wC4 cfgC4 2) = false ∧
    (iterState wC4 cfgC4 2).visited = [str ("https://e.com/")] ∧
    str ("https://e.com/blocked") ∉ (iterState wC4 cfgC4 2).visited ∧
    str ("https://e.com/blocked") ∉ (iterState wC4 cfgC4 2).pageGets := by decide

/-- C4 witness: the amended statement applied to the `wC4` run and to a
concrete discovery-time denial. -/
theorem C4_witness_instance :
    (str ("https://e.com/")) ∈ (iterState wC4 cfgC4 2).pageGets ∧
    wC4.canFetch cfgC4.user_agent (str ("https://e.com/")) = true ∧
    (enqueueLink wC4 cfgC4 (str ("https://e.com/")) (freshState wC4 cfgC4)
        (str ("/blocked"))).to_visit = (freshState wC4 cfgC4).to_visit := by
  refine ⟨by decide, ?_, ?_⟩
  · exact (C4_robots_denials wC4 cfgC4 2).1 (str ("https://e.com/")) (by decide) (by decide)
  · exact ((C4_robots_denials wC4 cfgC4 2).2.2 (str ("https://e.com/"))
      (freshState wC4 cfgC4) (str ("/blocked")) (by decide) (by decide)).1

/-- C5 (code bug): the spec requires a failed page-document write to abort
only that URL while the crawl continues, and no write error to terminate the
run; but the write at lines 270–285 is outside every `try`, so the exception
escapes: the run crashes and the remaining frontier entry `https://e.com/b`
is never processed. -/
theorem C5_page_write_error_kills_run :
    runCrashed (crawlRun wC5 cfgC5 10) = true ∧
    str ("https://e.com/b") ∈ (runState (crawlRun wC5 cfgC5 10)).to_visit ∧
    str ("https://e.com/b") ∉ (runState (crawlRun wC5 cfgC5 10)).pageGets := by decide

/-- C7 (amended): invalid hrefs — empty, fragment-only, `javascript:`,
`mailto:`, `tel:`, or matching the ignored-extension regex, which tests the
WHOLE href string rather than the URL path — contribute nothing to link
discovery: folding the enqueue step over the hrefs equals folding it over
the valid hrefs only. -/
theorem C7_invalid_hrefs_never_enqueued :
    (∀ (w : World) (cfg : Config) (pageUrl : Str) (s : CrawlState) (hrefs : List Str),
      hrefs.foldl (enqueueLink w cfg pageUrl) s =
        (hrefs.filter isValidHref).foldl (enqueueLink w cfg pageUrl) s) ∧
    isValidHref (str ("#section")) = false ∧
    isValidHref (str ("javascript:void(0)")) = false ∧
    isValidHref (str ("mailto:a@b.c")) = false ∧
    isValidHref (str ("tel:+123")) = false ∧
    isValidHref (str ("movie.MP4")) = false := by
  refine ⟨?_, by decide, by decide, by decide, by decide, by decide⟩
  intro w cfg pageUrl s hrefs
  induction hrefs generalizing s with
  | nil => rfl
  | cons h t ih =>
    cases hv : isValidHref h with
    | true =>
      simp only [List.foldl_cons, List.filter_cons, hv, if_true]
      exact ih (enqueueLink w cfg pageUrl s h)
    | false =>
      simp only [List.foldl_cons, List.filter_cons, hv, Bool.false_eq_true, if_false]
      rw [enqueueLink_invalid w cfg pageUrl s hv]
      exact ih s

/-- C7 counterexample: the href `a.css?x=1` resolves to a URL whose PATH
matches the ignored extension set, yet the whole-string regex does not match
it, so the crawler enqueues it — refuting the claim as stated. -/
theorem C7_css_with_query_enqueued :
    extRegexMatch IGNORED_EXTENSIONS
      (urlparsePy [] (str ("https://example.com/a.css?x=1"))).path = true ∧
    (iterState wTest cfgTest 1).to_visit = [str ("https://example.com/a.css?x=1")] := by decide

/-- C9: the seed enters the frontier verbatim; after its processing the
visited set holds exactly the raw seed string, and when the seed is not
canonical its canonical form is absent from the visited set — and in a
concrete run the canonical form is then discovered, enqueued and fetched a
second time. -/
theorem C9_seed_not_normalized :
    (∀ (w : World) (cfg : Config), cfg.resume = false →
      (initState w cfg).to_visit = [cfg.start_url]) ∧
    (∀ (w : World) (cfg : Config), cfg.resume = false → 0 < cfg.max_pages →
      w.shutdownAt 0 = false →
      (iterState w cfg 1).visited = [cfg.start_url] ∧
      (normalizeUrl (baseScheme cfg) cfg.start_url ≠ cfg.start_url →
        normalizeUrl (baseScheme cfg) cfg.start_url ∉ (iterState w cfg 1).visited)) ∧
    ((iterState wC9 cfgC9 3).pageGets =
        [str ("https://e.com/#top"), str ("https://e.com/")] ∧
      normalizeUrl (baseScheme cfgC9) cfgC9.start_url = str ("https://e.com/") ∧
      cfgC9.start_url ≠ str ("https://e.com/")) := by
  refine ⟨?_, ?_, by decide, by decide, by decide⟩
  · intro w cfg hres
    simp [initState, hres, freshState]
  · intro w cfg hres hmax hsht
    have hfresh : initState w cfg = freshState w cfg := by simp [initState, hres]
    have hg : loopGuard w cfg (freshState w cfg) = true := by
      apply loopGuard_true_of
      · simp [freshState]
      · simpa [freshState] using hmax
      · simpa [freshState] using hsht
    have h1 : iterState w cfg 1 = stateOf (crawlStep w cfg (freshState w cfg)) := by
      unfold iterState
      rw [hfresh]
      exact crawlIter_one w cfg hg
    have hvis : (stateOf (crawlStep w cfg (freshState w cfg))).visited = [cfg.start_url] := by
      unfold crawlStep freshState
      dsimp only
      split
      · rename_i hmem
        simp at hmem
      · split
        · simp [stateOf]
        · rw [(fetchAndProcess_fields w cfg cfg.start_url _).1]
          rfl
    refine ⟨h1 ▸ hvis, ?_⟩
    intro hne
    rw [h1, hvis]
    simp only [List.mem_singleton]
    exact hne

theorem downloadAsset_mono (w : World) (cfg : Config) (pu : Str) (s : CrawlState) (r : Str) :
    (∀ u ∈ s.assetGets, u ∈ (stateOf (downloadAsset w cfg pu s r)).assetGets) ∧
    (∀ u ∈ s.assetWrites, u ∈ (stateOf (downloadAsset w cfg pu s r)).assetWrites) := by
  refine ⟨fun u hu => ?_, fun u hu => ?_⟩ <;> simp only [downloadAsset]
  all_goals repeat' split
  all_goals simp only [stateOf]
  all_goals simp [List.mem_append, hu]

theorem foldAssets_mono (f : CrawlState → Str → StepRes)
    (hf : ∀ st x, (∀ u ∈ st.assetGets, u ∈ (stateOf (f st x)).assetGets) ∧
      (∀ u ∈ st.assetWrites, u ∈ (stateOf (f st x)).assetWrites)) :
    ∀ (l : List Str) (s : CrawlState),
      (∀ u ∈ s.assetGets, u ∈ (stateOf (foldAssets f s l)).assetGets) ∧
      (∀ u ∈ s.assetWrites, u ∈ (stateOf (foldAssets f s l)).assetWrites) := by
  intro l
  induction l with
  | nil => intro s; exact ⟨fun u hu => hu, fun u hu => hu⟩
  | cons x xs ih =>
    intro s
    cases hfx : f s x with
    | ok s1 =>
      have h := hf s x
      rw [hfx] at h
      simp only [stateOf] at h
      constructor
      · intro u hu
        simpa [foldAssets, hfx] using (ih s1).1 u (h.1 u hu)
      · intro u hu
        simpa [foldAssets, hfx] using (ih s1).2 u (h.2 u hu)
    | crash s1 =>
      have h := hf s x
      rw [hfx] at h
      simp only [stateOf] at h
      constructor
      · intro u hu
        simpa [foldAssets, hfx, stateOf] using h.1 u hu
      · intro u hu
        simpa [foldAssets, hfx, stateOf] using h.2 u hu

theorem downloadAsset_spec (w : World) (cfg : Config) (pu : Str) {s s1 : CrawlState} {ref : Str}
    (h : downloadAsset w cfg pu s ref = .ok s1)
    (hd : (str ("data:")).isPrefixOf (urljoin pu ref) = false) :
    urljoin pu ref ∈ s1.assetGets ∧
    (w.assetFetchOk (urljoin pu ref) = true →
     w.assetWriteOk (safeAssetPath (osJoin cfg.output_dir (str ("assets"))) pu
        (urljoin pu ref)) = true →
     safeAssetPath (osJoin cfg.output_dir (str ("assets"))) pu (urljoin pu ref) ∈
       s1.assetWrites) := by
  unfold downloadAsset at h
  dsimp only at h
  rw [hd] at h
  simp only [Bool.false_eq_true, if_false] at h
  split at h
  · rename_i hfetch
    cases h
    constructor
    · simp
    · intro hf _
      rw [hf] at hfetch
      simp at hfetch
  · rename_i hfetch
    split at h
    · cases h
    · split at h
      · rename_i hwrite
        cases h
        constructor
        · simp
        · intro _ hw
          rw [hw] at hwrite
          simp at hwrite
      · cases h
        constructor
        · simp
        · intro _ _
          simp

theorem isAssetLink_ne_nil {x : Str} (h : isAssetLink x = true) : x ≠ [] := by
  intro hnil
  rw [hnil] at h
  simp [isAssetLink] at h

theorem foldAssets_download_spec (w : World) (cfg : Config) (pu : Str)
    (f : CrawlState → Str → StepRes)
    (hmono : ∀ st x, (∀ u ∈ st.assetGets, u ∈ (stateOf (f st x)).assetGets) ∧
      (∀ u ∈ st.assetWrites, u ∈ (stateOf (f st x)).assetWrites))
    (htrig : ∀ st x, isAssetLink x = true → f st x = downloadAsset w cfg pu st x) :
    ∀ (l : List Str) (s s' : CrawlState), foldAssets f s l = .ok s' →
      ∀ ref ∈ l, isAssetLink ref = true →
      (str ("data:")).isPrefixOf (urljoin pu ref) = false →
      urljoin pu ref ∈ s'.assetGets ∧
      (w.assetFetchOk (urljoin pu ref) = true →
       w.assetWriteOk (safeAssetPath (osJoin cfg.output_dir (str ("assets"))) pu
          (urljoin pu ref)) = true →
       safeAssetPath (osJoin cfg.output_dir (str ("assets"))) pu (urljoin pu ref) ∈
         s'.assetWrites) := by
  intro l
  induction l with
  | nil => intro s s' _ ref href; exact absurd href (List.not_mem_nil ref)
  | cons x xs ih =>
    intro s s' h ref href hassert hdata
    cases hfx : f s x with
    | crash s1 => simp [foldAssets, hfx] at h
    | ok s1 =>
      have hh : foldAssets f s1 xs = .ok s' := by simpa [foldAssets, hfx] using h
      rcases List.mem_cons.mp href with heq | hmem
      · subst heq
        have hda : downloadAsset w cfg pu s ref = .ok s1 := by
          rw [← htrig s ref hassert]
          exact hfx
        have hspec := downloadAsset_spec w cfg pu hda hdata
        have hm := foldAssets_mono f hmono xs s1
        rw [hh] at hm
        simp only [stateOf] at hm
        exact ⟨hm.1 _ hspec.1, fun hf hw => hm.2 _ (hspec.2 hf hw)⟩
      · exact ih s1 s' hh ref hmem hassert hdata

/-- C10: asset downloads bypass both the same-origin filter and the robots
gate.  For any world (in particular one whose robots policy denies every
URL) and any asset reference on a fetched page — image `src` or asset-typed
`a[href]`, resolved against the page URL, not a `data:` URI — the resolved
absolute URL is GET-requested, with no condition on its network location or
on `canFetch`; and when the fetch and the byte write succeed, the bytes are
written under `assets/<netloc>/...`. -/
theorem C10_assets_ungated : ∀ (w : World) (cfg : Config) (pageUrl : Str) (s : CrawlState)
    (srcs hrefs : List Str) (ref : Str) (s1 s2 : CrawlState),
    (processImgs w cfg pageUrl s srcs = .ok s1 → ref ∈ srcs → isAssetLink ref = true →
      (str ("data:")).isPrefixOf (urljoin pageUrl ref) = false →
      urljoin pageUrl ref ∈ s1.assetGets ∧
      (w.assetFetchOk (urljoin pageUrl ref) = true →
       w.assetWriteOk (safeAssetPath (osJoin cfg.output_dir (str ("assets"))) pageUrl
          (urljoin pageUrl ref)) = true →
       safeAssetPath (osJoin cfg.output_dir (str ("assets"))) pageUrl (urljoin pageUrl ref) ∈
         s1.assetWrites)) ∧
    (processHrefAssets w cfg pageUrl s hrefs = .ok s2 → ref ∈ hrefs → isAssetLink ref = true →
      (str ("data:")).isPrefixOf (urljoin pageUrl ref) = false →
      urljoin pageUrl ref ∈ s2.assetGets ∧
      (w.assetFetchOk (urljoin pageUrl ref) = true →
       w.assetWriteOk (safeAssetPath (osJoin cfg.output_dir (str ("assets"))) pageUrl
          (urljoin pageUrl ref)) = true →
       safeAssetPath (osJoin cfg.output_dir (str ("assets"))) pageUrl (urljoin pageUrl ref) ∈
         s2.assetWrites)) := by
  intro w cfg pageUrl s srcs hrefs ref s1 s2
  constructor
  · intro h href hassert hdata
    refine foldAssets_download_spec w cfg pageUrl _ ?_ ?_ srcs s s1 h ref href hassert hdata
    · intro st x
      dsimp only
      split
      · exact ⟨fun u hu => hu, fun u hu => hu⟩
      · split
        · exact downloadAsset_mono w cfg pageUrl st x
        · exact ⟨fun u hu => hu, fun u hu => hu⟩
    · intro st x hx
      have hne := isAssetLink_ne_nil hx
      simp [hne, hx]
  · intro h href hassert hdata
    refine foldAssets_download_spec w cfg pageUrl _ ?_ ?_ hrefs s s2 h ref href hassert hdata
    · intro st x
      dsimp only
      split
      · exact ⟨fun u hu => hu, fun u hu => hu⟩
      · split
        · exact downloadAsset_mono w cfg pageUrl st x
        · exact ⟨fun u hu => hu, fun u hu => hu⟩
    · intro st x hx
      have hne := isAssetLink_ne_nil hx
      simp [hne, hx]

/-- C10 witness: a cross-origin asset on a page of `e.com`, with a robots
policy that denies everything, is still fetched and written under
`assets/other.com/`. -/
theorem C10_witness_instance :
    robotsActive wC10 cfgC10 = true ∧
    wC10.canFetch cfgC10.user_agent (str ("https://other.com/pic.png")) = false ∧
    str ("https://other.com/pic.png") ∈
      (stateOf (processImgs wC10 cfgC10 (str ("https://e.com/x")) (freshState wC10 cfgC10)
        [str ("https://other.com/pic.png")])).assetGets ∧
    str ("out/assets/other.com/pic.png") ∈
      (stateOf (processImgs wC10 cfgC10 (str ("https://e.com/x")) (freshState wC10 cfgC10)
        [str ("https://other.com/pic.png")])).assetWrites := by
  have h := (C10_assets_ungated wC10 cfgC10 (str ("https://e.com/x")) (freshState wC10 cfgC10)
    [str ("https://other.com/pic.png")] [] (str ("https://other.com/pic.png"))
    (stateOf (processImgs wC10 cfgC10 (str ("https://e.com/x")) (freshState wC10 cfgC10)
      [str ("https://other.com/pic.png")]))
    (freshState wC10 cfgC10)).1 (by decide) (by decide) (by decide) (by decide)
  refine ⟨by decide, by decide, ?_, ?_⟩
  · exact (by decide :
      urljoin (str ("https://e.com/x")) (str ("https://other.com/pic.png")) =
        str ("https://other.com/pic.png")) ▸ h.1
  · exact (by decide :
      safeAssetPath (osJoin cfgC10.output_dir (str ("assets"))) (str ("https://e.com/x"))
        (urljoin (str ("https://e.com/x")) (str ("https://other.com/pic.png"))) =
        str ("out/assets/other.com/pic.png")) ▸ h.2 (by decide) (by decide)

/-! ### Path-length lemmas for C6 -/

theorem hex8_length (x : Nat) : (hex8 x).length = 8 := by
  simp [hex8]

theorem sha1Hexdigest_length (b : List Nat) : (sha1Hexdigest b).length = 40 := by
  unfold sha1Hexdigest
  obtain ⟨h0, h1, h2, h3, h4⟩ :=
    sha1Blocks (1732584193, 4023233417, 2562383102, 271733878, 3285377520) (sha1Pad b)
  simp [hex8_length]

theorem sha1hex10_length (s : Str) : (sha1hex10 s).length = 10 := by
  simp [sha1hex10, List.length_take, sha1Hexdigest_length]

theorem hex8_no_slash (x : Nat) : ∀ c ∈ hex8 x, c ≠ '/' := by
  intro c hc
  simp only [hex8, List.mem_map, List.mem_range] at hc
  obtain ⟨i, _, rfl⟩ := hc
  have h16 : x / 16 ^ (7 - i) % 16 < 16 := Nat.mod_lt _ (by norm_num)
  revert h16
  generalize x / 16 ^ (7 - i) % 16 = m
  intro h16
  exact (by decide : ∀ m < 16, hexDigit m ≠ '/') m h16

theorem sha1hex10_no_slash (s : Str) : ∀ c ∈ sha1hex10 s, c ≠ '/' := by
  intro c hc
  have hc' : c ∈ sha1Hexdigest (utf8Bytes s) := List.mem_of_mem_take hc
  unfold sha1Hexdigest at hc'
  obtain ⟨h0, h1, h2, h3, h4⟩ :=
    sha1Blocks (1732584193, 4023233417, 2562383102, 271733878, 3285377520)
      (sha1Pad (utf8Bytes s))
  simp only [List.mem_append] at hc'
  rcases hc' with ((((h | h) | h) | h) | h) <;> exact hex8_no_slash _ c h

theorem osSplit_tail_no_slash (p : Str) : ∀ c ∈ (osSplit p).2, c ≠ '/' := by
  simp only [osSplit]
  intro c hc
  rw [List.mem_reverse] at hc
  have := List.mem_takeWhile_imp hc
  simpa using this

theorem osSplit_tail_append_md (pre : Str) :
    (osSplit (pre ++ str (".md"))).2 =
      ((pre.reverse.takeWhile (· != '/')).reverse) ++ str (".md") := by
  show ((pre ++ str (".md")).reverse.takeWhile (· != '/')).reverse = _
  rw [List.reverse_append]
  rw [show (str (".md")).reverse = ('d' :: 'm' :: '.' :: ([] : Str)) from rfl]
  rw [List.takeWhile_append_of_pos (by decide)]
  rw [List.reverse_append]
  rfl

theorem rfindPos_dot (T : Str) : rfindPos '.' (T ++ str (".md")) = some T.length := by
  unfold rfindPos
  rw [List.reverse_append]
  rw [show (str (".md")).reverse = ('d' :: 'm' :: '.' :: ([] : Str)) from rfl]
  have h1 : (('d' :: 'm' :: '.' :: ([] : Str)) ++ T.reverse).findIdx? (· == '.') = some 2 := by
    rw [List.cons_append, List.findIdx?_cons, if_neg (by decide)]
    rw [List.cons_append, List.findIdx?_cons, if_neg (by decide)]
    rw [List.singleton_append, List.findIdx?_cons, if_pos (by decide)]
  rw [h1]
  dsimp only
  congr 1
  rw [List.length_append]
  rw [show (str (".md")).length = 3 from rfl]
  omega

theorem rfindPos_none_of_not_mem {c : Char} {p : Str} (hp : ∀ x ∈ p, x ≠ c) :
    rfindPos c p = none := by
  unfold rfindPos
  have hnone : p.reverse.findIdx? (· == c) = none := by
    rw [List.findIdx?_eq_none_iff]
    intro x hx
    simp only [beq_eq_false_iff_ne, ne_eq]
    exact hp x (List.mem_reverse.mp hx)
  rw [hnone]

theorem osSplitext_fst_mem {q : Str} {c : Char} (hc : c ∈ (osSplitext q).1) : c ∈ q := by
  unfold osSplitext at hc
  dsimp only at hc
  split at hc
  · exact hc
  · split at hc
    · split at hc
      · exact List.mem_of_mem_take hc
      · exact hc
    · exact hc

theorem osSplitext_md_ext_len {T : Str} (hs : ∀ c ∈ T, c ≠ '/') :
    (osSplitext (T ++ str (".md"))).2.length ≤ 3 := by
  have hslash : rfindPos '/' (T ++ str (".md")) = none := by
    apply rfindPos_none_of_not_mem
    intro x hx
    rcases List.mem_append.mp hx with h | h
    · exact hs x h
    · exact (by decide : ∀ x ∈ str (".md"), x ≠ '/') x h
  unfold osSplitext
  rw [hslash, rfindPos_dot]
  dsimp only
  rw [if_pos (Nat.zero_le _)]
  split
  · show ((T ++ str (".md")).take T.length, (T ++ str (".md")).drop T.length).2.length ≤ 3
    dsimp only
    rw [List.drop_left' rfl]
    decide
  · simp

theorem ne_nil_of_append_cons {a : Str} {c : Char} {b : Str} : a ++ c :: b ≠ [] := by
  intro hc
  have := congrArg List.length hc
  simp [List.length_append] at this

theorem osSplit_osJoin_tail {a b : Str} (hb : ∀ c ∈ b, c ≠ '/') (hne : b ≠ []) :
    (osSplit (osJoin a b)).2 = b := by
  have hbrev : ∀ c ∈ b.reverse, (c != '/') = true := by
    intro c hc
    simpa using hb c (List.mem_reverse.mp hc)
  unfold osJoin
  split
  · rename_i hh
    cases b with
    | nil => simp at hh
    | cons x t =>
      simp only [List.head?_cons, Option.some.injEq] at hh
      exact absurd hh (hb x (List.mem_cons_self x t))
  · split
    · show ((a ++ b).reverse.takeWhile (· != '/')).reverse = b
      rename_i hcond
      rw [List.reverse_append, List.takeWhile_append_of_pos hbrev]
      have hta : a.reverse.takeWhile (· != '/') = [] := by
        rcases hcond with hnil | hlast
        · rw [hnil]; rfl
        · cases ha : a.reverse with
          | nil => rfl
          | cons x t =>
            have hx : x = '/' := by
              have hh2 : a.getLast? = some x := by
                rw [← List.head?_reverse, ha, List.head?_cons]
              rw [hh2] at hlast
              exact Option.some.inj hlast
            rw [hx]
            rw [List.takeWhile_cons_of_neg (by simp)]
      rw [hta, List.append_nil, List.reverse_reverse]
    · show ((a ++ '/' :: b).reverse.takeWhile (· != '/')).reverse = b
      rw [List.reverse_append, List.reverse_cons, List.append_assoc,
        List.takeWhile_append_of_pos hbrev]
      have h0 : (['/'] ++ a.reverse).takeWhile (· != '/') = [] := by
        rw [List.singleton_append]
        rw [List.takeWhile_cons_of_neg (by simp)]
      rw [h0, List.append_nil, List.reverse_reverse]

theorem ensureMdSuffix_shape (p : Str) : ∃ pre, ensureMdSuffix p = pre ++ str (".md") := by
  unfold ensureMdSuffix
  split
  · rename_i h
    rw [List.isSuffixOf_iff_suffix] at h
    obtain ⟨pre, hp⟩ := h
    exact ⟨pre, hp.symm⟩
  · exact ⟨p, rfl⟩

theorem osSplitext_snd_mem {q : Str} {c : Char} (hc : c ∈ (osSplitext q).2) : c ∈ q := by
  unfold osSplitext at hc
  dsimp only at hc
  split at hc
  · exact absurd hc (List.not_mem_nil c)
  · split at hc
    · split at hc
      · exact List.mem_of_mem_drop hc
      · exact absurd hc (List.not_mem_nil c)
    · exact absurd hc (List.not_mem_nil c)

theorem capPiece_props (target name ext : Str) (hname : ∀ c ∈ name, c ≠ '/')
    (hext : ∀ c ∈ ext, c ≠ '/') (hel : ext.length ≤ 3) :
    (∀ c ∈ name.take
        (if 200 - ext.length - 3 - (sha1hex10 target).length < 16 then 16
         else 200 - ext.length - 3 - (sha1hex10 target).length) ++
        str ("__") ++ sha1hex10 target ++ ext, c ≠ '/') ∧
    name.take
        (if 200 - ext.length - 3 - (sha1hex10 target).length < 16 then 16
         else 200 - ext.length - 3 - (sha1hex10 target).length) ++
        str ("__") ++ sha1hex10 target ++ ext ≠ [] ∧
    (name.take
        (if 200 - ext.length - 3 - (sha1hex10 target).length < 16 then 16
         else 200 - ext.length - 3 - (sha1hex10 target).length) ++
        str ("__") ++ sha1hex10 target ++ ext).length ≤ 200 := by
  have h10 := sha1hex10_length target
  have hA : ¬ (200 - ext.length - 3 - (sha1hex10 target).length < 16) := by
    rw [h10]
    omega
  rw [if_neg hA]
  refine ⟨?_, ?_, ?_⟩
  · intro c hc
    simp only [List.append_assoc, List.mem_append] at hc
    rcases hc with h | h | h | h
    · exact hname c (List.mem_of_mem_take h)
    · exact (by decide : ∀ c ∈ str ("__"), c ≠ '/') c h
    · exact sha1hex10_no_slash target c h
    · exact hext c h
  · intro hnil
    have := congrArg List.length hnil
    simp only [List.length_append, List.length_nil] at this
    rw [show (str ("__")).length = 2 from rfl] at this
    omega
  · have hmin : (name.take (200 - ext.length - 3 - (sha1hex10 target).length)).length ≤
        200 - ext.length - 3 - (sha1hex10 target).length := by
      rw [List.length_take]
      exact Nat.min_le_left _ _
    simp only [List.length_append]
    rw [show (str ("__")).length = 2 from rfl, h10]
    rw [h10] at hmin
    omega

theorem capComponent_md (target pre : Str) :
    (osSplit (capComponent 16 target (pre ++ str (".md")))).2.length ≤ 200 := by
  simp only [capComponent]
  split
  · rename_i hlong
    have htail := osSplit_tail_append_md pre
    have hnoslash := osSplit_tail_no_slash (pre ++ str (".md"))
    have hTns : ∀ c ∈ (pre.reverse.takeWhile (· != '/')).reverse, c ≠ '/' := by
      intro c hc
      apply hnoslash
      rw [htail]
      exact List.mem_append_left _ hc
    have hext3 : (osSplitext (osSplit (pre ++ str (".md"))).2).2.length ≤ 3 := by
      rw [htail]
      exact osSplitext_md_ext_len hTns
    have hname : ∀ c ∈ (osSplitext (osSplit (pre ++ str (".md"))).2).1, c ≠ '/' :=
      fun c hc => hnoslash c (osSplitext_fst_mem hc)
    have hext : ∀ c ∈ (osSplitext (osSplit (pre ++ str (".md"))).2).2, c ≠ '/' :=
      fun c hc => hnoslash c (osSplitext_snd_mem hc)
    have hp := capPiece_props target (osSplitext (osSplit (pre ++ str (".md"))).2).1
      (osSplitext (osSplit (pre ++ str (".md"))).2).2 hname hext hext3
    rw [osSplit_osJoin_tail hp.1 hp.2.1]
    exact hp.2.2
  · rename_i hshort
    omega

theorem capComponent_ensureMd (target q : Str) :
    (osSplit (capComponent 16 target (ensureMdSuffix q))).2.length ≤ 200 := by
  obtain ⟨pre, hp⟩ := ensureMdSuffix_shape q
  rw [hp]
  exact capComponent_md target pre

/-- C6 (amended): only the FINAL component of a derived path is
length-checked; for page paths the final component of
`_safe_filename_from_url` never exceeds 200 characters (an over-length
component is truncated and suffixed with `__` plus ten hex digits of the
SHA-1 of the source URL), but directory components are not capped at all
(see the counterexample), and an asset path's final component can exceed 200
when its extension alone approaches the cap. -/
theorem C6_page_final_component_capped : ∀ (baseUrl targetUrl : Str),
    (osSplit (safeFilenameFromUrl baseUrl targetUrl)).2.length ≤ 200 := by
  intro b t
  simp only [safeFilenameFromUrl]
  exact capComponent_ensureMd t _

/-- C6 counterexample: a URL with a 210-character directory segment yields a
derived page path with a 210-character path component — the claim's "every
single path component has length at most 200" is false (only the final
component is checked). -/
theorem C6_directory_component_uncapped :
    (splitSlash (safeFilenameFromUrl (str ("https://example.com/")) longDirTarget)).any
      (fun c => decide (200 < c.length)) = true := by decide

/-- C9 witness: the general parts applied to the concrete non-canonical
seed `https://e.com/#top`. -/
theorem C9_witness_instance :
    (initState wC9 cfgC9).to_visit = [cfgC9.start_url] ∧
    (iterState wC9 cfgC9 1).visited = [cfgC9.start_url] ∧
    normalizeUrl (baseScheme cfgC9) cfgC9.start_url ∉ (iterState wC9 cfgC9 1).visited :=
  ⟨C9_seed_not_normalized.1 wC9 cfgC9 rfl,
    (C9_seed_not_normalized.2.1 wC9 cfgC9 rfl (by decide) rfl).1,
    (C9_seed_not_normalized.2.1 wC9 cfgC9 rfl (by decide) rfl).2 (by decide)⟩

/-! ### C8: normalization idempotence — character-level lemmas -/

theorem toNat_ofNat_lt (n : Nat) (h : n < 55296) : (Char.ofNat n).toNat = n := by
  unfold Char.ofNat
  rw [dif_pos (Or.inl h)]
  rfl

theorem pyLower_cases (c : Char) :
    (65 ≤ c.toNat ∧ c.toNat ≤ 90 ∧ (pyLower c).toNat = c.toNat + 32) ∨
    (charIsUpper c = false ∧ pyLower c = c) := by
  cases hu : charIsUpper c with
  | true =>
    left
    have hb : 65 ≤ c.toNat ∧ c.toNat ≤ 90 := by
      simpa [charIsUpper] using hu
    refine ⟨hb.1, hb.2, ?_⟩
    unfold pyLower
    rw [if_pos hu]
    exact toNat_ofNat_lt _ (by omega)
  | false =>
    right
    refine ⟨rfl, ?_⟩
    unfold pyLower
    rw [if_neg (by simp [hu])]

theorem charIsAlpha_pyLower (c : Char) (h : charIsAlpha c = true) :
    charIsAlpha (pyLower c) = true := by
  rcases pyLower_cases c with ⟨h1, h2, h3⟩ | ⟨_, heq⟩
  · simp only [charIsAlpha, charIsUpper, charIsLower, Bool.or_eq_true, Bool.and_eq_true,
      decide_eq_true_eq, h3]
    right
    omega
  · rw [heq]
    exact h

theorem isSchemeChar_pyLower (c : Char) (h : isSchemeChar c = true) :
    isSchemeChar (pyLower c) = true := by
  rcases pyLower_cases c with ⟨h1, h2, h3⟩ | ⟨_, heq⟩
  · have hal : charIsAlpha (pyLower c) = true := by
      simp only [charIsAlpha, charIsUpper, charIsLower, Bool.or_eq_true, Bool.and_eq_true,
        decide_eq_true_eq, h3]
      right
      omega
    simp [isSchemeChar, hal]
  · rw [heq]
    exact h

theorem pyLower_idem (c : Char) : pyLower (pyLower c) = pyLower c := by
  rcases pyLower_cases (pyLower c) with ⟨h1, h2, _⟩ | ⟨_, heq⟩
  · exfalso
    rcases pyLower_cases c with ⟨g1, g2, g3⟩ | ⟨gu, geq⟩
    · omega
    · rw [geq] at h1 h2
      have hT : charIsUpper c = true := by
        simp only [charIsUpper, Bool.and_eq_true, decide_eq_true_eq]
        omega
      exact Bool.noConfusion (gu.symm.trans hT)
  · exact heq

theorem charIsAlpha_bounds (c : Char) (h : charIsAlpha c = true) :
    65 ≤ c.toNat ∧ c.toNat ≤ 122 := by
  simp only [charIsAlpha, charIsUpper, charIsLower, Bool.or_eq_true, Bool.and_eq_true,
    decide_eq_true_eq] at h
  rcases h with ⟨h1, h2⟩ | ⟨h1, h2⟩ <;> omega

theorem isSchemeChar_bounds (c : Char) (h : isSchemeChar c = true) :
    (42 ≤ c.toNat ∧ c.toNat ≤ 122) ∧ c.toNat ≠ 58 ∧ c.toNat ≠ 47 ∧ c.toNat ≠ 63 ∧
      c.toNat ≠ 35 := by
  simp only [isSchemeChar, charIsAlpha, charIsUpper, charIsLower, charIsDigit, Bool.or_eq_true,
    Bool.and_eq_true, decide_eq_true_eq, beq_iff_eq] at h
  rcases h with ((((⟨h1, h2⟩ | ⟨h1, h2⟩) | ⟨h1, h2⟩) | rfl) | rfl) | rfl <;>
    first
    | (refine ⟨by omega, by omega, by omega, by omega, by omega⟩)
    | decide

theorem ne_of_toNat_ne (c d : Char) (h : c.toNat ≠ d.toNat) : c ≠ d :=
  fun he => h (he ▸ rfl)

theorem isSchemeChar_ne_colon (c : Char) (h : isSchemeChar c = true) : (c != ':') = true := by
  have hb := (isSchemeChar_bounds c h).2.1
  simp only [bne_iff_ne, ne_eq]
  exact ne_of_toNat_ne c ':' hb

theorem isTRN_isC0 (c : Char) (h : isTRN c = true) : isC0OrSpace c = true := by
  simp only [isTRN, Bool.or_eq_true, beq_iff_eq] at h
  rcases h with (rfl | rfl) | rfl <;> decide

theorem not_isC0OrSpace_of_gt (c : Char) (h : 32 < c.toNat) : isC0OrSpace c = false := by
  simp only [isC0OrSpace, decide_eq_false_iff_not]
  omega

theorem not_isTRN_of_gt (c : Char) (h : 32 < c.toNat) : isTRN c = false := by
  cases ht : isTRN c with
  | false => rfl
  | true =>
    have hc := isTRN_isC0 c ht
    simp only [isC0OrSpace, decide_eq_true_eq] at hc
    omega

/-! ### C8: generic takeWhile/dropWhile/filter helpers -/

theorem mem_of_mem_dropWhile (p : Char → Bool) (l : Str) (c : Char)
    (h : c ∈ l.dropWhile p) : c ∈ l :=
  (List.dropWhile_sublist p).subset h

theorem mem_of_mem_takeWhile (p : Char → Bool) (l : Str) (c : Char)
    (h : c ∈ l.takeWhile p) : c ∈ l :=
  (List.takeWhile_sublist p).subset h

theorem dropWhile_head_false (p : Char → Bool) (l : Str) (c : Char) (t : Str)
    (h : l.dropWhile p = c :: t) : p c = false := by
  induction l with
  | nil => exact absurd h (by simp)
  | cons a as ih =>
    rw [List.dropWhile_cons] at h
    by_cases ha : p a = true
    · rw [if_pos ha] at h
      exact ih h
    · rw [if_neg ha] at h
      injection h with h1 _
      rw [← h1]
      exact Bool.eq_false_iff.mpr ha

theorem takeWhile_eq_cons_head (p : Char → Bool) (l : Str) (c : Char) (t : Str)
    (h : l.takeWhile p = c :: t) : (∃ t2, l = c :: t2) ∧ p c = true := by
  cases l with
  | nil => exact absurd h (by simp)
  | cons a as =>
    rw [List.takeWhile_cons] at h
    by_cases ha : p a = true
    · rw [if_pos ha] at h
      injection h with h1 _
      exact ⟨⟨as, by rw [h1]⟩, h1 ▸ ha⟩
    · rw [if_neg ha] at h
      exact absurd h (by simp)

theorem dropWhile_eq_nil_of_all (p : Char → Bool) (l : Str) (h : ∀ a ∈ l, p a = true) :
    l.dropWhile p = [] := by
  induction l with
  | nil => rfl
  | cons a as ih =>
    rw [List.dropWhile_cons, if_pos (h a (List.mem_cons_self a as))]
    exact ih (fun b hb => h b (List.mem_cons_of_mem a hb))

theorem takeWhile_eq_self_of_all (p : Char → Bool) (l : Str) (h : ∀ a ∈ l, p a = true) :
    l.takeWhile p = l := by
  induction l with
  | nil => rfl
  | cons a as ih =>
    rw [List.takeWhile_cons, if_pos (h a (List.mem_cons_self a as))]
    rw [ih (fun b hb => h b (List.mem_cons_of_mem a hb))]

theorem takeWhile_append_of_mem_neg (p : Char → Bool) (a : Char) (l1 l2 : Str)
    (ha : a ∈ l1) (hpa : p a = false) :
    (l1 ++ l2).takeWhile p = l1.takeWhile p := by
  induction l1 with
  | nil => cases ha
  | cons b bs ih =>
    rw [List.cons_append, List.takeWhile_cons, List.takeWhile_cons]
    by_cases hb : p b = true
    · rw [if_pos hb, if_pos hb]
      rcases List.mem_cons.mp ha with rfl | hmem
      · exact Bool.noConfusion (hpa.symm.trans hb)
      · rw [ih hmem]
    · rw [if_neg hb, if_neg hb]

theorem dropWhile_append_of_mem_neg (p : Char → Bool) (a : Char) (l1 l2 : Str)
    (ha : a ∈ l1) (hpa : p a = false) :
    (l1 ++ l2).dropWhile p = l1.dropWhile p ++ l2 := by
  induction l1 with
  | nil => cases ha
  | cons b bs ih =>
    rw [List.cons_append, List.dropWhile_cons, List.dropWhile_cons]
    by_cases hb : p b = true
    · rw [if_pos hb, if_pos hb]
      rcases List.mem_cons.mp ha with rfl | hmem
      · exact Bool.noConfusion (hpa.symm.trans hb)
      · exact ih hmem
    · rw [if_neg hb, if_neg hb, List.cons_append]

theorem dropWhile_ne_nil_of_mem (p : Char → Bool) (a : Char) (l : Str)
    (ha : a ∈ l) (hpa : p a = false) : l.dropWhile p ≠ [] := by
  induction l with
  | nil => cases ha
  | cons b bs ih =>
    rw [List.dropWhile_cons]
    by_cases hb : p b = true
    · rw [if_pos hb]
      rcases List.mem_cons.mp ha with rfl | hmem
      · exact Bool.noConfusion (hpa.symm.trans hb)
      · exact ih hmem
    · rw [if_neg hb]
      simp

theorem pySplitFirst_not_mem (c : Char) (l : Str) (h : c ∉ l) : pySplitFirst c l = (l, []) := by
  unfold pySplitFirst
  have hall : ∀ a ∈ l, (a != c) = true := by
    intro a ha
    simp only [bne_iff_ne, ne_eq]
    intro he
    exact h (he ▸ ha)
  rw [takeWhile_eq_self_of_all _ _ hall, dropWhile_eq_nil_of_all _ _ hall]
  rfl

theorem pySplitFirst_append (c : Char) (l1 l2 : Str) (h : c ∉ l1) :
    pySplitFirst c (l1 ++ c :: l2) = (l1, l2) := by
  unfold pySplitFirst
  have hall : ∀ a ∈ l1, (a != c) = true := by
    intro a ha
    simp only [bne_iff_ne, ne_eq]
    intro he
    exact h (he ▸ ha)
  rw [List.takeWhile_append_of_pos hall, List.dropWhile_append_of_pos hall]
  rw [List.takeWhile_cons, if_neg (by simp), List.dropWhile_cons, if_neg (by simp)]
  simp

/-! ### C8: schemeDetect, splitnetloc and stripUrl lemmas -/

theorem schemeDetect_some_shape (u s r : Str) (h : schemeDetect u = some (s, r)) :
    ∃ c cs, s = c :: cs ∧ charIsAlpha c = true ∧ cs.all isSchemeChar = true ∧
      lowerStr s = s := by
  simp only [schemeDetect] at h
  split at h
  · exact absurd h (by simp)
  · split at h
    · exact absurd h (by simp)
    · rename_i c0 cs0 heq
      split at h
      · rename_i hcond
        have hs : lowerStr (u.takeWhile (· != ':')) = s :=
          congrArg Prod.fst (Option.some.inj h)
        rw [heq] at hs
        have hc1 : charIsAlpha c0 = true := ((Bool.and_eq_true _ _).mp hcond).1
        have hc2 : cs0.all isSchemeChar = true := ((Bool.and_eq_true _ _).mp hcond).2
        refine ⟨pyLower c0, lowerStr cs0, ?_, ?_, ?_, ?_⟩
        · rw [← hs]
          rfl
        · exact charIsAlpha_pyLower c0 hc1
        · rw [lowerStr, List.all_map]
          rw [List.all_eq_true] at hc2 ⊢
          exact fun x hx => isSchemeChar_pyLower x (hc2 x hx)
        · rw [← hs]
          simp only [lowerStr, List.map_map]
          exact List.map_congr_left (fun a _ => pyLower_idem a)
      · exact absurd h (by simp)

theorem schemeDetect_wf_front (s R : Str) (c : Char) (cs : Str) (hs : s = c :: cs)
    (ha : charIsAlpha c = true) (hall : cs.all isSchemeChar = true)
    (hlow : lowerStr s = s) :
    schemeDetect (s ++ ':' :: R) = some (s, R) := by
  subst hs
  have hne : ∀ a ∈ c :: cs, (a != ':') = true := by
    intro a haa
    rcases List.mem_cons.mp haa with rfl | hmem
    · have hb := charIsAlpha_bounds a ha
      simp only [bne_iff_ne, ne_eq]
      have h58 : Char.toNat ':' = 58 := rfl
      exact ne_of_toNat_ne a ':' (by omega)
    · exact isSchemeChar_ne_colon a (List.all_eq_true.mp hall a hmem)
  have hcnd : (charIsAlpha c && List.all cs isSchemeChar) = true := by
    rw [ha, hall]
    rfl
  simp only [schemeDetect]
  rw [List.takeWhile_append_of_pos hne, List.dropWhile_append_of_pos hne]
  rw [List.takeWhile_cons, if_neg (by simp), List.dropWhile_cons, if_neg (by simp)]
  simp only [List.append_nil]
  simp only [hcnd, if_true, hlow]

theorem schemeDetect_none_head (c : Char) (t : Str) (h : charIsAlpha c = false) :
    schemeDetect (c :: t) = none := by
  simp only [schemeDetect]
  by_cases hc : (c != ':') = true
  · rw [List.takeWhile_cons, if_pos hc, List.dropWhile_cons, if_pos hc]
    cases hd : t.dropWhile (· != ':') with
    | nil => rfl
    | cons d dt => simp [h]
  · rw [List.takeWhile_cons, if_neg hc, List.dropWhile_cons, if_neg hc]

theorem schemeDetect_none_transfer (A X Y : Str) (hA : A ≠ [])
    (hX : schemeDetect (A ++ X) = none)
    (hY : Y = [] ∨ ∃ t, Y = '?' :: t) :
    schemeDetect (A ++ Y) = none := by
  by_cases hc : ':' ∈ A
  · obtain ⟨d, dt, hd⟩ : ∃ d dt, A.dropWhile (· != ':') = d :: dt := by
      cases hA2 : A.dropWhile (· != ':') with
      | nil => exact absurd hA2 (dropWhile_ne_nil_of_mem _ ':' A hc (by simp))
      | cons d dt => exact ⟨d, dt, rfl⟩
    simp only [schemeDetect] at hX ⊢
    rw [takeWhile_append_of_mem_neg _ ':' A X hc (by simp),
        dropWhile_append_of_mem_neg _ ':' A X hc (by simp), hd, List.cons_append] at hX
    rw [takeWhile_append_of_mem_neg _ ':' A Y hc (by simp),
        dropWhile_append_of_mem_neg _ ':' A Y hc (by simp), hd, List.cons_append]
    cases hpre : A.takeWhile (· != ':') with
    | nil => rfl
    | cons e es =>
      rw [hpre] at hX
      by_cases hcond : (charIsAlpha e && es.all isSchemeChar) = true
      · simp [hcond] at hX
      · have hcf : (charIsAlpha e && es.all isSchemeChar) = false := Bool.eq_false_iff.mpr hcond
        simp [hcf]
  · have hallA : ∀ a ∈ A, (a != ':') = true := by
      intro a ha
      simp only [bne_iff_ne, ne_eq]
      intro he
      exact hc (he ▸ ha)
    rcases hY with rfl | ⟨t, rfl⟩
    · rw [List.append_nil]
      simp only [schemeDetect]
      simp [dropWhile_eq_nil_of_all _ A hallA]
    · by_cases hct : ':' ∈ t
      · simp only [schemeDetect]
        rw [List.takeWhile_append_of_pos hallA, List.dropWhile_append_of_pos hallA]
        rw [List.takeWhile_cons, if_pos (by decide), List.dropWhile_cons, if_pos (by decide)]
        cases hdt : t.dropWhile (· != ':') with
        | nil => rfl
        | cons d dt =>
          cases A with
          | nil => exact absurd rfl hA
          | cons a as =>
            rw [List.cons_append]
            have hq : ((as ++ '?' :: t.takeWhile (· != ':')).all isSchemeChar) = false := by
              rw [List.all_eq_false]
              exact ⟨'?', List.mem_append_right _ (List.mem_cons_self _ _), by decide⟩
            simp [hq]
      · simp only [schemeDetect]
        have hall2 : ∀ a ∈ A ++ '?' :: t, (a != ':') = true := by
          intro a ha
          rcases List.mem_append.mp ha with h1 | h2
          · exact hallA a h1
          · rcases List.mem_cons.mp h2 with rfl | h3
            · decide
            · simp only [bne_iff_ne, ne_eq]
              intro he
              exact hct (he ▸ h3)
        simp [dropWhile_eq_nil_of_all _ _ hall2]

theorem splitnetloc_append (n : Str) (d : Char) (t : Str)
    (hn : ∀ c ∈ n, isNetlocDelim c = false) (hd : isNetlocDelim d = true) :
    splitnetloc (n ++ d :: t) = (n, d :: t) := by
  unfold splitnetloc
  have hall : ∀ c ∈ n, (!(isNetlocDelim c)) = true := by
    intro c hcm
    rw [hn c hcm]
    rfl
  rw [List.takeWhile_append_of_pos hall, List.dropWhile_append_of_pos hall]
  rw [List.takeWhile_cons, if_neg (by simp [hd]), List.dropWhile_cons, if_neg (by simp [hd])]
  simp

theorem stripUrl_eq_self (u : Str) (hhead : ∀ c t, u = c :: t → isC0OrSpace c = false)
    (htrn : ∀ c ∈ u, isTRN c = false) : stripUrl u = u := by
  unfold stripUrl
  have hdw : u.dropWhile isC0OrSpace = u := by
    cases hu : u with
    | nil => rfl
    | cons c t =>
      rw [List.dropWhile_cons, if_neg (by simp [hhead c t hu])]
  rw [hdw]
  rw [List.filter_eq_self]
  intro a ha
  rw [htrn a ha]
  rfl

theorem stripUrl_head (u : Str) (c : Char) (t : Str) (h : stripUrl u = c :: t) :
    isC0OrSpace c = false := by
  unfold stripUrl at h
  cases hd : u.dropWhile isC0OrSpace with
  | nil =>
    rw [hd] at h
    exact absurd h (by simp)
  | cons a t2 =>
    have hA : isC0OrSpace a = false := dropWhile_head_false isC0OrSpace u a t2 hd
    have hTa : isTRN a = false := by
      cases ht : isTRN a with
      | false => rfl
      | true => exact absurd (isTRN_isC0 a ht) (by simp [hA])
    rw [hd, List.filter_cons_of_pos (by simp [hTa])] at h
    injection h with h1 _
    rw [← h1]
    exact hA

theorem stripUrl_mem_not_trn (u : Str) (c : Char) (h : c ∈ stripUrl u) : isTRN c = false := by
  unfold stripUrl at h
  have := List.mem_filter.mp h
  simpa using this.2

/-! ### C8: params-split lemmas -/

theorem contains_mem (l : Str) (c : Char) (h : l.contains c = true) : c ∈ l := by
  simpa using h

theorem mem_contains (l : Str) (c : Char) (h : c ∈ l) : l.contains c = true := by
  simpa using h

theorem not_mem_contains (l : Str) (c : Char) (h : c ∉ l) : l.contains c = false := by
  simpa using h

theorem lastSlashSeg_decomp (p : Str) :
    (p.reverse.dropWhile (· != '/')).reverse ++ lastSlashSeg p = p := by
  unfold lastSlashSeg
  rw [← List.reverse_append, List.takeWhile_append_dropWhile, List.reverse_reverse]

theorem lastSlashSeg_no_slash (p : Str) (c : Char) (h : c ∈ lastSlashSeg p) :
    (c != '/') = true := by
  unfold lastSlashSeg at h
  rw [List.mem_reverse] at h
  have hh := List.mem_takeWhile_imp h
  exact hh

theorem rev_dropWhile_slash (p : Str) (h : '/' ∈ p) :
    ∃ E, (p.reverse.dropWhile (· != '/')).reverse = E ++ ['/'] := by
  have hm : '/' ∈ p.reverse := List.mem_reverse.mpr h
  cases hd : p.reverse.dropWhile (· != '/') with
  | nil => exact absurd hd (dropWhile_ne_nil_of_mem _ '/' _ hm (by simp))
  | cons d dt =>
    have hdf := dropWhile_head_false _ _ _ _ hd
    have hde : d = '/' := by simpa using hdf
    subst hde
    exact ⟨dt.reverse, by rw [List.reverse_cons]⟩

theorem lastSlashSeg_append_slash (A B : Str) (hB : ∀ c ∈ B, (c != '/') = true) :
    lastSlashSeg (A ++ '/' :: B) = B := by
  unfold lastSlashSeg
  rw [List.reverse_append, List.reverse_cons, List.append_assoc]
  rw [List.takeWhile_append_of_pos (fun a ha => hB a (List.mem_reverse.mp ha))]
  rw [List.singleton_append, List.takeWhile_cons, if_neg (by simp)]
  rw [List.append_nil, List.reverse_reverse]

theorem take_sub_of_decomp (D S p : Str) (h : D ++ S = p) :
    p.take (p.length - S.length) = D := by
  subst h
  rw [List.length_append, Nat.add_sub_cancel]
  exact List.take_left D S

theorem pySplitParams_fst_front (p : Str) : ∃ B, p = (pySplitParams p).1 ++ B := by
  unfold pySplitParams
  by_cases hs : p.contains '/' = true
  · rw [if_pos hs]
    by_cases hsg : (lastSlashSeg p).contains ';' = true
    · rw [if_pos hsg]
      dsimp only
      refine ⟨(lastSlashSeg p).dropWhile (· != ';'), ?_⟩
      rw [take_sub_of_decomp _ _ _ (lastSlashSeg_decomp p)]
      rw [List.append_assoc, List.takeWhile_append_dropWhile]
      exact (lastSlashSeg_decomp p).symm
    · rw [if_neg hsg]
      exact ⟨[], (List.append_nil p).symm⟩
  · rw [if_neg hs]
    dsimp only
    exact ⟨p.dropWhile (· != ';'), (List.takeWhile_append_dropWhile _ p).symm⟩

theorem pySplitParams_fst_head (p : Str) (c : Char) (t : Str)
    (h : (pySplitParams p).1 = c :: t) : ∃ t2, p = c :: t2 := by
  obtain ⟨B, hB⟩ := pySplitParams_fst_front p
  rw [h] at hB
  exact ⟨t ++ B, by rw [hB]; rfl⟩

theorem pySplitParams_fst_mem (p : Str) (c : Char) (h : c ∈ (pySplitParams p).1) : c ∈ p := by
  obtain ⟨B, hB⟩ := pySplitParams_fst_front p
  rw [hB]
  exact List.mem_append_left _ h

theorem pySplitParams_idem (p : Str) :
    pySplitParams (pySplitParams p).1 = ((pySplitParams p).1, []) := by
  by_cases hs : p.contains '/' = true
  · by_cases hsg : (lastSlashSeg p).contains ';' = true
    · have hkept : (pySplitParams p).1
          = (p.reverse.dropWhile (· != '/')).reverse ++ (lastSlashSeg p).takeWhile (· != ';') := by
        unfold pySplitParams
        rw [if_pos hs, if_pos hsg]
        dsimp only
        rw [take_sub_of_decomp _ _ _ (lastSlashSeg_decomp p)]
      obtain ⟨E, hE⟩ := rev_dropWhile_slash p (contains_mem _ _ hs)
      have hsegTW : ∀ a ∈ (lastSlashSeg p).takeWhile (· != ';'), (a != '/') = true :=
        fun a ha => lastSlashSeg_no_slash p a (mem_of_mem_takeWhile _ _ _ ha)
      have hkept2 : (pySplitParams p).1
          = E ++ '/' :: (lastSlashSeg p).takeWhile (· != ';') := by
        rw [hkept, hE, List.append_assoc, List.singleton_append]
      have hnosemi : ';' ∉ (lastSlashSeg p).takeWhile (· != ';') := by
        intro hm
        have hh := List.mem_takeWhile_imp hm
        simp at hh
      rw [hkept2]
      unfold pySplitParams
      rw [if_pos (mem_contains _ _ (List.mem_append_right E (List.mem_cons_self _ _)))]
      rw [lastSlashSeg_append_slash E _ hsegTW]
      rw [if_neg (by simp [hnosemi])]
    · have heq : pySplitParams p = (p, []) := by
        unfold pySplitParams
        rw [if_pos hs, if_neg hsg]
      rw [heq]
      exact heq
  · have hkept : (pySplitParams p).1 = p.takeWhile (· != ';') := by
      unfold pySplitParams
      rw [if_neg hs]
    have hnosemi : ∀ a ∈ p.takeWhile (· != ';'), (a != ';') = true := by
      intro a ha
      have hh := List.mem_takeWhile_imp ha
      exact hh
    have hns : '/' ∉ p.takeWhile (· != ';') := by
      intro hm
      exact hs (mem_contains _ _ (mem_of_mem_takeWhile _ _ _ hm))
    rw [hkept]
    unfold pySplitParams
    rw [if_neg (by simp [hns])]
    rw [takeWhile_eq_self_of_all _ _ hnosemi, dropWhile_eq_nil_of_all _ _ hnosemi]
    rfl

/-! ### C8: anatomy of the parse result -/

theorem schemeDetect_rest_mem (u s r : Str) (h : schemeDetect u = some (s, r)) (c : Char)
    (hc : c ∈ r) : c ∈ u := by
  simp only [schemeDetect] at h
  split at h
  · exact absurd h (by simp)
  · rename_i d aft heq
    split at h
    · exact absurd h (by simp)
    · split at h
      · have hr : aft = r := congrArg Prod.snd (Option.some.inj h)
        exact mem_of_mem_dropWhile _ u c (heq ▸ List.mem_cons_of_mem d (hr ▸ hc))
      · exact absurd h (by simp)

theorem urlsplitCore_anatomy (dflt w : Str) :
    ∃ rest rest2,
      ((schemeDetect w = none ∧ (urlsplitCore dflt w).scheme = dflt ∧ rest = w) ∨
        schemeDetect w = some ((urlsplitCore dflt w).scheme, rest)) ∧
      ((¬ rest.take 2 = str ("//") ∧ (urlsplitCore dflt w).netloc = [] ∧ rest2 = rest) ∨
        (rest.take 2 = str ("//") ∧
          (urlsplitCore dflt w).netloc = (rest.drop 2).takeWhile (fun c => !(isNetlocDelim c)) ∧
          rest2 = (rest.drop 2).dropWhile (fun c => !(isNetlocDelim c)))) ∧
      (urlsplitCore dflt w).path = (rest2.takeWhile (· != '#')).takeWhile (· != '?') ∧
      (urlsplitCore dflt w).query = ((rest2.takeWhile (· != '#')).dropWhile (· != '?')).drop 1 ∧
      (urlsplitCore dflt w).params = [] := by
  cases hsd : schemeDetect w with
  | none =>
    by_cases h2 : w.take 2 = str ("//")
    · refine ⟨w, (w.drop 2).dropWhile (fun c => !(isNetlocDelim c)),
        Or.inl ⟨rfl, ?_, rfl⟩, Or.inr ⟨h2, ?_, rfl⟩, ?_, ?_, ?_⟩ <;>
        simp [urlsplitCore, hsd, h2, splitnetloc, pySplitFirst]
    · refine ⟨w, w, Or.inl ⟨rfl, ?_, rfl⟩, Or.inl ⟨h2, ?_, rfl⟩, ?_, ?_, ?_⟩ <;>
        simp [urlsplitCore, hsd, h2, pySplitFirst]
  | some p =>
    obtain ⟨s0, r0⟩ := p
    have hsch : (urlsplitCore dflt w).scheme = s0 := by simp [urlsplitCore, hsd]
    by_cases h2 : r0.take 2 = str ("//")
    · refine ⟨r0, (r0.drop 2).dropWhile (fun c => !(isNetlocDelim c)),
        Or.inr (by rw [hsch]), Or.inr ⟨h2, ?_, rfl⟩, ?_, ?_, ?_⟩ <;>
        simp [urlsplitCore, hsd, h2, splitnetloc, pySplitFirst]
    · refine ⟨r0, r0, Or.inr (by rw [hsch]), Or.inl ⟨h2, ?_, rfl⟩, ?_, ?_, ?_⟩ <;>
        simp [urlsplitCore, hsd, h2, pySplitFirst]

theorem urlparsePy_from_split (u : Str) :
    (urlparsePy [] u).scheme = (urlsplitPy [] u).scheme ∧
    (urlparsePy [] u).netloc = (urlsplitPy [] u).netloc ∧
    (urlparsePy [] u).query = (urlsplitPy [] u).query ∧
    (∃ B, (urlsplitPy [] u).path = (urlparsePy [] u).path ++ B) ∧
    ((¬((urlsplitPy [] u).scheme ∈ usesParams ∧ (urlsplitPy [] u).path.contains ';' = true) ∧
        urlparsePy [] u = urlsplitPy [] u) ∨
      (urlparsePy [] u).path = (pySplitParams (urlsplitPy [] u).path).1) := by
  simp only [urlparsePy]
  by_cases hc : (urlsplitPy [] u).scheme ∈ usesParams ∧ (urlsplitPy [] u).path.contains ';' = true
  · rw [if_pos hc]
    refine ⟨rfl, rfl, rfl, ?_, Or.inr rfl⟩
    obtain ⟨B, hB⟩ := pySplitParams_fst_front (urlsplitPy [] u).path
    exact ⟨B, hB⟩
  · rw [if_neg hc]
    exact ⟨rfl, rfl, rfl, ⟨[], (List.append_nil _).symm⟩, Or.inl ⟨hc, rfl⟩⟩

theorem path0_head (rest2 : Str) (c : Char) (t : Str)
    (h : (rest2.takeWhile (· != '#')).takeWhile (· != '?') = c :: t) :
    (∃ t2, rest2 = c :: t2) ∧ (c != '?') = true ∧ (c != '#') = true := by
  obtain ⟨⟨t1, h1⟩, hq⟩ := takeWhile_eq_cons_head _ _ _ _ h
  obtain ⟨⟨t2, h2⟩, hh⟩ := takeWhile_eq_cons_head _ _ _ _ h1
  exact ⟨⟨t2, h2⟩, hq, hh⟩

/-! ### C8: facts about every `urlparse(url)` result, feeding the reparse lemma -/

theorem parse_scheme_wf (u : Str) :
    (urlparsePy [] u).scheme = [] ∨
    ∃ c cs, (urlparsePy [] u).scheme = c :: cs ∧ charIsAlpha c = true ∧
      cs.all isSchemeChar = true ∧
      lowerStr (urlparsePy [] u).scheme = (urlparsePy [] u).scheme := by
  obtain ⟨hS, _, _, _, _⟩ := urlparsePy_from_split u
  rw [hS]
  have he : urlsplitPy [] u = urlsplitCore [] (stripUrl u) := rfl
  rw [he]
  obtain ⟨rest, rest2, hsch, _, _, _, _⟩ := urlsplitCore_anatomy [] (stripUrl u)
  rcases hsch with ⟨_, hd, _⟩ | hsd
  · exact Or.inl hd
  · exact Or.inr (schemeDetect_some_shape _ _ _ hsd)

theorem parse_netloc_nodelim (u : Str) (c : Char) (h : c ∈ (urlparsePy [] u).netloc) :
    isNetlocDelim c = false := by
  obtain ⟨_, hN, _, _, _⟩ := urlparsePy_from_split u
  rw [hN] at h
  have he : urlsplitPy [] u = urlsplitCore [] (stripUrl u) := rfl
  rw [he] at h
  obtain ⟨rest, rest2, _, hnet, _, _, _⟩ := urlsplitCore_anatomy [] (stripUrl u)
  rcases hnet with ⟨_, hn, _⟩ | ⟨_, hn, _⟩
  · rw [hn] at h
    cases h
  · rw [hn] at h
    have hh := List.mem_takeWhile_imp h
    simpa using hh

theorem parse_path_no_qf (u : Str) (c : Char) (h : c ∈ (urlparsePy [] u).path) :
    c ≠ '?' ∧ c ≠ '#' := by
  obtain ⟨_, _, _, ⟨B, hB⟩, _⟩ := urlparsePy_from_split u
  have hmem : c ∈ (urlsplitPy [] u).path := by
    rw [hB]
    exact List.mem_append_left _ h
  have he : urlsplitPy [] u = urlsplitCore [] (stripUrl u) := rfl
  rw [he] at hmem
  obtain ⟨rest, rest2, _, _, hP, _, _⟩ := urlsplitCore_anatomy [] (stripUrl u)
  rw [hP] at hmem
  have h1 := List.mem_takeWhile_imp hmem
  have h2 := List.mem_takeWhile_imp (mem_of_mem_takeWhile _ _ _ hmem)
  exact ⟨by simpa using h1, by simpa using h2⟩

theorem parse_query_no_f (u : Str) (c : Char) (h : c ∈ (urlparsePy [] u).query) : c ≠ '#' := by
  obtain ⟨_, _, hQ, _, _⟩ := urlparsePy_from_split u
  rw [hQ] at h
  have he : urlsplitPy [] u = urlsplitCore [] (stripUrl u) := rfl
  rw [he] at h
  obtain ⟨rest, rest2, _, _, _, hQ2, _⟩ := urlsplitCore_anatomy [] (stripUrl u)
  rw [hQ2] at h
  have h1 := mem_of_mem_dropWhile _ _ _ (List.mem_of_mem_drop h)
  have h2 := List.mem_takeWhile_imp h1
  simpa using h2

theorem parse_mem_strip (u : Str) (c : Char)
    (h : c ∈ (urlparsePy [] u).netloc ∨ c ∈ (urlparsePy [] u).path ∨
      c ∈ (urlparsePy [] u).query) :
    c ∈ stripUrl u := by
  obtain ⟨_, hN, hQ, ⟨B, hB⟩, _⟩ := urlparsePy_from_split u
  have he : urlsplitPy [] u = urlsplitCore [] (stripUrl u) := rfl
  obtain ⟨rest, rest2, hsch, hnet, hP, hQ2, _⟩ := urlsplitCore_anatomy [] (stripUrl u)
  have hrest : ∀ d, d ∈ rest → d ∈ stripUrl u := by
    rcases hsch with ⟨_, _, hr⟩ | hsd
    · intro d hd
      rw [hr] at hd
      exact hd
    · exact fun d hd => schemeDetect_rest_mem _ _ _ hsd d hd
  have hrest2 : ∀ d, d ∈ rest2 → d ∈ stripUrl u := by
    rcases hnet with ⟨_, _, hr2⟩ | ⟨_, _, hr2⟩
    · intro d hd
      rw [hr2] at hd
      exact hrest d hd
    · intro d hd
      rw [hr2] at hd
      exact hrest d (List.mem_of_mem_drop (mem_of_mem_dropWhile _ _ _ hd))
  rcases h with h | h | h
  · rw [hN, he] at h
    rcases hnet with ⟨_, hn, _⟩ | ⟨_, hn, _⟩
    · rw [hn] at h
      cases h
    · rw [hn] at h
      exact hrest c (List.mem_of_mem_drop (mem_of_mem_takeWhile _ _ _ h))
  · have hmem : c ∈ (urlsplitPy [] u).path := by
      rw [hB]
      exact List.mem_append_left _ h
    rw [he, hP] at hmem
    exact hrest2 c (mem_of_mem_takeWhile _ _ _ (mem_of_mem_takeWhile _ _ _ hmem))
  · rw [hQ, he, hQ2] at h
    exact hrest2 c
      (mem_of_mem_takeWhile _ _ _ (mem_of_mem_dropWhile _ _ _ (List.mem_of_mem_drop h)))

theorem parse_slash (u : Str) (hnl : (urlparsePy [] u).netloc ≠ []) :
    (urlparsePy [] u).path = [] ∨ ∃ t, (urlparsePy [] u).path = '/' :: t := by
  cases hp : (urlparsePy [] u).path with
  | nil => exact Or.inl rfl
  | cons c t =>
    right
    obtain ⟨_, hN, _, ⟨B, hB⟩, hD⟩ := urlparsePy_from_split u
    have hsp : ∃ t2, (urlsplitPy [] u).path = c :: t2 := by
      rcases hD with ⟨_, heq⟩ | hkp
      · rw [heq] at hp
        exact ⟨t, hp⟩
      · rw [hkp] at hp
        exact pySplitParams_fst_head _ _ _ hp
    obtain ⟨t2, hsp⟩ := hsp
    have he : urlsplitPy [] u = urlsplitCore [] (stripUrl u) := rfl
    rw [he] at hsp
    obtain ⟨rest, rest2, _, hnet, hP, _, _⟩ := urlsplitCore_anatomy [] (stripUrl u)
    rw [hP] at hsp
    obtain ⟨⟨t3, h3⟩, hq, hh⟩ := path0_head rest2 c t2 hsp
    rcases hnet with ⟨_, hn, _⟩ | ⟨_, _, hr2⟩
    · exfalso
      apply hnl
      rw [hN, he, hn]
    · rw [hr2] at h3
      have hd := dropWhile_head_false _ _ _ _ h3
      have hdel : isNetlocDelim c = true := by simpa using hd
      have hc : c = '/' := by
        simp only [isNetlocDelim, Bool.or_eq_true, beq_iff_eq] at hdel
        rcases hdel with (h | h) | h
        · exact h
        · exact absurd h (by simpa using hq)
        · exact absurd h (by simpa using hh)
      exact ⟨t, by rw [hc]⟩

theorem parse_head_c0 (u : Str) (hs : (urlparsePy [] u).scheme = []) (c : Char) (t : Str)
    (hp : (urlparsePy [] u).path = c :: t) : isC0OrSpace c = false := by
  obtain ⟨hS, _, _, ⟨B, hB⟩, hD⟩ := urlparsePy_from_split u
  have hsp : ∃ t2, (urlsplitPy [] u).path = c :: t2 := by
    rcases hD with ⟨_, heq⟩ | hkp
    · rw [heq] at hp
      exact ⟨t, hp⟩
    · rw [hkp] at hp
      exact pySplitParams_fst_head _ _ _ hp
  obtain ⟨t2, hsp⟩ := hsp
  have he : urlsplitPy [] u = urlsplitCore [] (stripUrl u) := rfl
  rw [he] at hsp
  obtain ⟨rest, rest2, hsch, hnet, hP, _, _⟩ := urlsplitCore_anatomy [] (stripUrl u)
  rw [hP] at hsp
  obtain ⟨⟨t3, h3⟩, hq, hh⟩ := path0_head rest2 c t2 hsp
  rcases hnet with ⟨_, _, hr2⟩ | ⟨_, _, hr2⟩
  · rcases hsch with ⟨_, _, hr⟩ | hsd
    · rw [hr2, hr] at h3
      exact stripUrl_head u c t3 h3
    · exfalso
      obtain ⟨c0, cs0, h1, _, _, _⟩ := schemeDetect_some_shape _ _ _ hsd
      rw [hS, he] at hs
      rw [hs] at h1
      exact absurd h1 (by simp)
  · rw [hr2] at h3
    have hd := dropWhile_head_false _ _ _ _ h3
    have hdel : isNetlocDelim c = true := by simpa using hd
    simp only [isNetlocDelim, Bool.or_eq_true, beq_iff_eq] at hdel
    rcases hdel with (rfl | rfl) | rfl <;> decide

theorem parse_sd_none (u : Str) (hs : (urlparsePy [] u).scheme = [])
    (hpne : (urlparsePy [] u).path ≠ []) (Y : Str) (hY : Y = [] ∨ ∃ t, Y = '?' :: t) :
    schemeDetect ((urlparsePy [] u).path ++ Y) = none := by
  obtain ⟨hS, _, _, ⟨B, hB⟩, hD⟩ := urlparsePy_from_split u
  obtain ⟨c, t, hp⟩ : ∃ c t, (urlparsePy [] u).path = c :: t := by
    cases hpp : (urlparsePy [] u).path with
    | nil => exact absurd hpp hpne
    | cons c t => exact ⟨c, t, rfl⟩
  have hsp : ∃ t2, (urlsplitPy [] u).path = c :: t2 := by
    rcases hD with ⟨_, heq⟩ | hkp
    · rw [heq] at hp
      exact ⟨t, hp⟩
    · rw [hkp] at hp
      exact pySplitParams_fst_head _ _ _ hp
  obtain ⟨t2, hsp⟩ := hsp
  have he : urlsplitPy [] u = urlsplitCore [] (stripUrl u) := rfl
  rw [he] at hsp
  obtain ⟨rest, rest2, hsch, hnet, hP, _, _⟩ := urlsplitCore_anatomy [] (stripUrl u)
  rw [hP] at hsp
  obtain ⟨⟨t3, h3⟩, hq, hh⟩ := path0_head rest2 c t2 hsp
  rcases hnet with ⟨_, _, hr2⟩ | ⟨_, _, hr2⟩
  · rcases hsch with ⟨hsd, _, hr⟩ | hsd
    · have hw : stripUrl u
          = ((stripUrl u).takeWhile (· != '#')).takeWhile (· != '?')
            ++ ((((stripUrl u).takeWhile (· != '#')).dropWhile (· != '?'))
              ++ (stripUrl u).dropWhile (· != '#')) := by
        rw [← List.append_assoc, List.takeWhile_append_dropWhile,
          List.takeWhile_append_dropWhile]
      have hsd2 : schemeDetect ((urlsplitPy [] u).path ++
          ((((stripUrl u).takeWhile (· != '#')).dropWhile (· != '?'))
            ++ (stripUrl u).dropWhile (· != '#'))) = none := by
        rw [he, hP, hr2, hr, ← hw]
        exact hsd
      have hsd3 : schemeDetect ((urlparsePy [] u).path ++
          (B ++ ((((stripUrl u).takeWhile (· != '#')).dropWhile (· != '?'))
            ++ (stripUrl u).dropWhile (· != '#')))) = none := by
        rw [← List.append_assoc, ← hB]
        exact hsd2
      exact schemeDetect_none_transfer _ _ Y hpne hsd3 hY
    · exfalso
      obtain ⟨c0, cs0, h1, _, _, _⟩ := schemeDetect_some_shape _ _ _ hsd
      rw [hS, he] at hs
      rw [hs] at h1
      exact absurd h1 (by simp)
  · rw [hr2] at h3
    have hd := dropWhile_head_false _ _ _ _ h3
    have hdel : isNetlocDelim c = true := by simpa using hd
    have hc : c = '/' := by
      simp only [isNetlocDelim, Bool.or_eq_true, beq_iff_eq] at hdel
      rcases hdel with (h | h) | h
      · exact h
      · exact absurd h (by simpa using hq)
      · exact absurd h (by simpa using hh)
    rw [hp, hc, List.cons_append]
    exact schemeDetect_none_head '/' _ (by decide)

theorem parse_params_stable (u : Str) (hc : (urlparsePy [] u).path.contains ';' = true)
    (hsch : (urlparsePy [] u).scheme ∈ usesParams ∨ (urlparsePy [] u).scheme = []) :
    pySplitParams (urlparsePy [] u).path = ((urlparsePy [] u).path, []) := by
  obtain ⟨hS, _, _, _, hD⟩ := urlparsePy_from_split u
  rcases hD with ⟨hno, heq⟩ | hsp
  · exfalso
    apply hno
    constructor
    · rcases hsch with h | h
      · rw [heq] at h
        exact h
      · rw [heq] at h
        rw [h]
        unfold usesParams
        exact List.mem_cons_self _ _
    · rw [heq] at hc
      exact hc
  · rw [hsp]
    exact pySplitParams_idem _

/-! ### C8: reparsing an unparsed canonical URL -/

theorem splitFragQuery (p' q : Str) (hpq : '?' ∉ p') (hpf : '#' ∉ p') (hqf : '#' ∉ q) :
    pySplitFirst '#' (p' ++ (if q = [] then [] else '?' :: q))
        = (p' ++ (if q = [] then [] else '?' :: q), []) ∧
      pySplitFirst '?' (p' ++ (if q = [] then [] else '?' :: q)) = (p', q) := by
  constructor
  · apply pySplitFirst_not_mem
    intro hm
    rcases List.mem_append.mp hm with h1 | h2
    · exact hpf h1
    · by_cases hq : q = []
      · rw [if_pos hq] at h2
        cases h2
      · rw [if_neg hq] at h2
        rcases List.mem_cons.mp h2 with he | h3
        · exact absurd he (by decide)
        · exact hqf h3
  · by_cases hq : q = []
    · rw [if_pos hq, List.append_nil]
      rw [pySplitFirst_not_mem _ _ hpq]
      rw [hq]
    · rw [if_neg hq]
      exact pySplitFirst_append _ _ _ hpq

theorem take2_append_ne (p' Y : Str) (hpne : p' ≠ []) (h2 : ¬ p'.take 2 = str ("//"))
    (hY : Y = [] ∨ ∃ t, Y = '?' :: t) :
    ¬ (p' ++ Y).take 2 = str ("//") := by
  cases p' with
  | nil => exact absurd rfl hpne
  | cons a t =>
    cases t with
    | cons b t2 =>
      intro hcon
      apply h2
      rw [List.cons_append, List.cons_append] at hcon
      exact hcon
    | nil =>
      rcases hY with rfl | ⟨t3, rfl⟩
      · rw [List.append_nil]
        exact h2
      · intro hcon
        rw [List.singleton_append] at hcon
        have hcon2 : ([a, '?'] : Str) = ['/', '/'] := hcon
        injection hcon2 with e1 e2
        injection e2 with e3 _
        exact absurd e3 (by decide)

theorem trn_free_R (n p' q : Str)
    (htrn : ∀ c, c ∈ n ∨ c ∈ p' ∨ c ∈ q → isTRN c = false) :
    ∀ c ∈ n ++ (p' ++ (if q = [] then [] else '?' :: q)), isTRN c = false := by
  intro c hc
  rcases List.mem_append.mp hc with h1 | h1
  · exact htrn c (Or.inl h1)
  · rcases List.mem_append.mp h1 with h3 | h3
    · exact htrn c (Or.inr (Or.inl h3))
    · by_cases hq : q = []
      · rw [if_pos hq] at h3
        cases h3
      · rw [if_neg hq] at h3
        rcases List.mem_cons.mp h3 with rfl | h4
        · decide
        · exact htrn c (Or.inr (Or.inr h4))

theorem trn_free_netR (n p' q : Str)
    (htrn : ∀ c, c ∈ n ∨ c ∈ p' ∨ c ∈ q → isTRN c = false) :
    ∀ d ∈ str ("//") ++ (n ++ (p' ++ (if q = [] then [] else '?' :: q))), isTRN d = false := by
  intro d hd
  rcases List.mem_append.mp hd with h1 | h1
  · rcases List.mem_cons.mp h1 with rfl | h3
    · decide
    · rcases List.mem_cons.mp h3 with rfl | h4
      · decide
      · cases h4
  · exact trn_free_R n p' q htrn d h1

theorem trn_free_plainR (p' q : Str)
    (htrn : ∀ c, c ∈ p' ∨ c ∈ q → isTRN c = false) :
    ∀ d ∈ p' ++ (if q = [] then [] else '?' :: q), isTRN d = false := by
  intro d hd
  rcases List.mem_append.mp hd with h1 | h1
  · exact htrn d (Or.inl h1)
  · by_cases hq : q = []
    · rw [if_pos hq] at h1
      cases h1
    · rw [if_neg hq] at h1
      rcases List.mem_cons.mp h1 with rfl | h4
      · decide
      · exact htrn d (Or.inr h4)

theorem trn_free_scheme (c : Char) (cs : Str) (hal : charIsAlpha c = true)
    (hall : cs.all isSchemeChar = true) : ∀ d ∈ c :: cs, isTRN d = false := by
  intro d hd
  rcases List.mem_cons.mp hd with rfl | hmem
  · exact not_isTRN_of_gt d (by have hb := charIsAlpha_bounds d hal; omega)
  · exact not_isTRN_of_gt d (by
      have hb := (isSchemeChar_bounds d (List.all_eq_true.mp hall d hmem)).1
      omega)

theorem strip_fix_netloc_noscheme (n pt q : Str)
    (htrn : ∀ c, c ∈ n ∨ c ∈ '/' :: pt ∨ c ∈ q → isTRN c = false) :
    stripUrl (str ("//") ++ (n ++ (('/' :: pt) ++ (if q = [] then [] else '?' :: q))))
      = str ("//") ++ (n ++ (('/' :: pt) ++ (if q = [] then [] else '?' :: q))) := by
  apply stripUrl_eq_self
  · intro c t hct
    have hct2 : '/' :: ('/' :: (n ++ (('/' :: pt) ++ (if q = [] then [] else '?' :: q))))
        = c :: t := hct
    injection hct2 with h1 _
    rw [← h1]
    decide
  · exact trn_free_netR n ('/' :: pt) q htrn

theorem strip_fix_scheme (c : Char) (cs R : Str) (hal : charIsAlpha c = true)
    (hall : cs.all isSchemeChar = true) (hR : ∀ d ∈ R, isTRN d = false) :
    stripUrl ((c :: cs) ++ ':' :: R) = (c :: cs) ++ ':' :: R := by
  apply stripUrl_eq_self
  · intro d t hct
    rw [List.cons_append] at hct
    injection hct with h1 _
    rw [← h1]
    exact not_isC0OrSpace_of_gt c (by have hb := charIsAlpha_bounds c hal; omega)
  · intro d hd
    rcases List.mem_append.mp hd with h1 | h1
    · exact trn_free_scheme c cs hal hall d h1
    · rcases List.mem_cons.mp h1 with rfl | h3
      · decide
      · exact hR d h3

theorem strip_fix_plain (p' q : Str) (hpne : p' ≠ [])
    (hhead : ∀ c t, p' = c :: t → isC0OrSpace c = false)
    (htrn : ∀ c, c ∈ p' ∨ c ∈ q → isTRN c = false) :
    stripUrl (p' ++ (if q = [] then [] else '?' :: q))
      = p' ++ (if q = [] then [] else '?' :: q) := by
  apply stripUrl_eq_self
  · intro c t hct
    cases hp : p' with
    | nil => exact absurd hp hpne
    | cons a t0 =>
      rw [hp, List.cons_append] at hct
      injection hct with h1 _
      rw [← h1]
      exact hhead a t0 hp
  · exact trn_free_plainR p' q htrn

theorem urlsplitCore_netloc_stage (dflt w s' n pt q : Str)
    (hn : ∀ c ∈ n, isNetlocDelim c = false)
    (hpq : '?' ∉ '/' :: pt) (hpf : '#' ∉ '/' :: pt) (hqf : '#' ∉ q)
    (hsr : (schemeDetect w = none ∧ dflt = s' ∧
        w = str ("//") ++ (n ++ (('/' :: pt) ++ (if q = [] then [] else '?' :: q)))) ∨
      schemeDetect w = some (s',
        str ("//") ++ (n ++ (('/' :: pt) ++ (if q = [] then [] else '?' :: q))))) :
    urlsplitCore dflt w = ⟨s', n, '/' :: pt, [], q, []⟩ := by
  have hfq := splitFragQuery ('/' :: pt) q hpq hpf hqf
  have hsnl : splitnetloc (n ++ (('/' :: pt) ++ (if q = [] then [] else '?' :: q)))
      = (n, ('/' :: pt) ++ (if q = [] then [] else '?' :: q)) :=
    splitnetloc_append n '/' (pt ++ (if q = [] then [] else '?' :: q)) hn (by decide)
  have htake : (str ("//") ++ (n ++ (('/' :: pt) ++ (if q = [] then [] else '?' :: q)))).take 2
      = str ("//") := rfl
  have hdrop : (str ("//") ++ (n ++ (('/' :: pt) ++ (if q = [] then [] else '?' :: q)))).drop 2
      = n ++ (('/' :: pt) ++ (if q = [] then [] else '?' :: q)) := rfl
  rcases hsr with ⟨hdet, hdf, hw⟩ | hdet
  · subst hdf
    simp only [urlsplitCore, hdet]
    rw [hw, if_pos htake, hdrop, hsnl]
    dsimp only
    rw [hfq.1]
    dsimp only
    rw [hfq.2]
  · simp only [urlsplitCore, hdet]
    rw [if_pos htake, hdrop, hsnl]
    dsimp only
    rw [hfq.1]
    dsimp only
    rw [hfq.2]

theorem urlsplitCore_plain_stage (dflt w s' p' q : Str)
    (hpq : '?' ∉ p') (hpf : '#' ∉ p') (hqf : '#' ∉ q)
    (h2 : ¬ (p' ++ (if q = [] then [] else '?' :: q)).take 2 = str ("//"))
    (hsr : (schemeDetect w = none ∧ dflt = s' ∧
        w = p' ++ (if q = [] then [] else '?' :: q)) ∨
      schemeDetect w = some (s', p' ++ (if q = [] then [] else '?' :: q))) :
    urlsplitCore dflt w = ⟨s', [], p', [], q, []⟩ := by
  have hfq := splitFragQuery p' q hpq hpf hqf
  rcases hsr with ⟨hdet, hdf, hw⟩ | hdet
  · subst hdf
    simp only [urlsplitCore, hdet]
    rw [hw, if_neg h2]
    dsimp only
    rw [hfq.1]
    dsimp only
    rw [hfq.2]
  · simp only [urlsplitCore, hdet]
    rw [if_neg h2]
    dsimp only
    rw [hfq.1]
    dsimp only
    rw [hfq.2]

theorem urlparse_finish (s' n p' q u1 : Str)
    (hsplit : urlsplitPy [] u1 = ⟨s', n, p', [], q, []⟩)
    (hsemi : s' ∈ usesParams → p'.contains ';' = true → pySplitParams p' = (p', [])) :
    urlparsePy [] u1 = ⟨s', n, p', [], q, []⟩ := by
  simp only [urlparsePy]
  rw [hsplit]
  dsimp only
  by_cases hco : s' ∈ usesParams ∧ (List.contains p' ';') = true
  · rw [if_pos hco]
    rw [hsemi hco.1 hco.2]
  · rw [if_neg hco]

theorem urlunparse_canon (s' n p' q : Str) :
    urlunparse ⟨s', n, p', [], q, []⟩
      = (if n ≠ [] ∨ (s' ≠ [] ∧ s' ∈ usesNetloc ∧ ¬ p'.take 2 = str ("//")) then
          (if s' = [] then
            str ("//") ++ (n ++ ((if p' ≠ [] ∧ p'.head? ≠ some '/' then '/' :: p' else p')
              ++ (if q = [] then [] else '?' :: q)))
          else s' ++ ':' :: (str ("//") ++ (n ++ ((if p' ≠ [] ∧ p'.head? ≠ some '/'
              then '/' :: p' else p') ++ (if q = [] then [] else '?' :: q)))))
        else (if s' = [] then p' ++ (if q = [] then [] else '?' :: q)
          else s' ++ ':' :: (p' ++ (if q = [] then [] else '?' :: q)))) := by
  simp only [urlunparse]
  rw [if_neg (by simp)]
  simp only [urlunsplit]
  by_cases hbr : n ≠ [] ∨ (s' ≠ [] ∧ s' ∈ usesNetloc ∧ ¬ p'.take 2 = str ("//"))
  · simp only [eq_true hbr, if_true]
    by_cases hs0 : s' = [] <;> by_cases hq : q = [] <;>
      simp [hs0, hq, List.append_assoc]
  · simp only [eq_false hbr, if_false]
    by_cases hs0 : s' = [] <;> by_cases hq : q = [] <;>
      simp [hs0, hq, List.append_assoc]

theorem urlsplitPy_empty_dflt (x : Str) : urlsplitPy [] x = urlsplitCore [] (stripUrl x) := rfl


/-! ### C8: head-slash insertion of `urlunsplit` -/

theorem headSlash_cases (p' : Str) (hpne : p' ≠ []) :
    ((if p' ≠ [] ∧ p'.head? ≠ some '/' then '/' :: p' else p') = p' ∧ ∃ t, p' = '/' :: t) ∨
    ((if p' ≠ [] ∧ p'.head? ≠ some '/' then '/' :: p' else p') = '/' :: p' ∧
      p'.head? ≠ some '/') := by
  by_cases h : p' ≠ [] ∧ p'.head? ≠ some '/'
  · exact Or.inr ⟨if_pos h, h.2⟩
  · left
    refine ⟨if_neg h, ?_⟩
    by_cases h2 : p'.head? = some '/'
    · cases p' with
      | nil => exact absurd rfl hpne
      | cons a t =>
        have h3 : some a = some '/' := h2
        injection h3 with ha
        exact ⟨t, by rw [ha]⟩
    · exact absurd ⟨hpne, h2⟩ h

theorem headSlash_shape (p' : Str) (hpne : p' ≠ []) :
    ∃ pt, (if p' ≠ [] ∧ p'.head? ≠ some '/' then '/' :: p' else p') = '/' :: pt := by
  rcases headSlash_cases p' hpne with ⟨he, t, ht⟩ | ⟨he, _⟩
  · exact ⟨t, by rw [he, ht]⟩
  · exact ⟨p', he⟩

theorem headSlash_mem (p' : Str) (c : Char)
    (h : c ∈ (if p' ≠ [] ∧ p'.head? ≠ some '/' then '/' :: p' else p')) :
    c = '/' ∨ c ∈ p' := by
  by_cases hb : p' ≠ [] ∧ p'.head? ≠ some '/'
  · rw [if_pos hb] at h
    rcases List.mem_cons.mp h with rfl | h2
    · exact Or.inl rfl
    · exact Or.inr h2
  · rw [if_neg hb] at h
    exact Or.inr h

theorem headSlash_idem (p' : Str) (hpne : p' ≠ []) :
    (if (if p' ≠ [] ∧ p'.head? ≠ some '/' then '/' :: p' else p') ≠ [] ∧
        (if p' ≠ [] ∧ p'.head? ≠ some '/' then '/' :: p' else p').head? ≠ some '/'
      then '/' :: (if p' ≠ [] ∧ p'.head? ≠ some '/' then '/' :: p' else p')
      else (if p' ≠ [] ∧ p'.head? ≠ some '/' then '/' :: p' else p'))
    = (if p' ≠ [] ∧ p'.head? ≠ some '/' then '/' :: p' else p') := by
  obtain ⟨pt, hpt⟩ := headSlash_shape p' hpne
  rw [hpt, if_neg (by simp)]

theorem headSlash_take2 (p' : Str) (hpne : p' ≠ []) (h2 : ¬ p'.take 2 = str ("//")) :
    ¬ (if p' ≠ [] ∧ p'.head? ≠ some '/' then '/' :: p' else p').take 2 = str ("//") := by
  rcases headSlash_cases p' hpne with ⟨he, _⟩ | ⟨he, hh⟩
  · rw [he]
    exact h2
  · rw [he]
    cases p' with
    | nil => exact absurd rfl hpne
    | cons a t =>
      have ha : a ≠ '/' := by
        intro hcon
        exact hh (by rw [hcon]; rfl)
      intro hcon
      have hcon2 : (['/', a] : Str) = ['/', '/'] := hcon
      injection hcon2 with _ h3
      injection h3 with h4 _
      exact ha h4

theorem pySplitParams_cons_slash (p : Str) (hst : pySplitParams p = (p, []))
    (hm : ';' ∈ p) : pySplitParams ('/' :: p) = ('/' :: p, []) := by
  have hslash_mem : '/' ∈ p ∧ ¬ (lastSlashSeg p).contains ';' = true := by
    by_cases hs : p.contains '/' = true
    · by_cases hsg : (lastSlashSeg p).contains ';' = true
      · exfalso
        unfold pySplitParams at hst
        rw [if_pos hs, if_pos hsg] at hst
        have hf := congrArg Prod.fst hst
        dsimp only at hf
        rw [take_sub_of_decomp _ _ _ (lastSlashSeg_decomp p)] at hf
        have htw : (lastSlashSeg p).takeWhile (· != ';') = lastSlashSeg p := by
          have hdec := lastSlashSeg_decomp p
          conv_rhs at hf => rw [← hdec]
          exact List.append_cancel_left hf
        have hm2 : ';' ∈ (lastSlashSeg p).takeWhile (· != ';') := by
          rw [htw]
          exact contains_mem _ _ hsg
        have hh := List.mem_takeWhile_imp hm2
        simp at hh
      · exact ⟨contains_mem _ _ hs, hsg⟩
    · exfalso
      unfold pySplitParams at hst
      rw [if_neg hs] at hst
      have hf := congrArg Prod.fst hst
      dsimp only at hf
      rw [← hf] at hm
      have hh := List.mem_takeWhile_imp hm
      simp at hh
  obtain ⟨hsl, hseg⟩ := hslash_mem
  have hseg2 : lastSlashSeg ('/' :: p) = lastSlashSeg p := by
    unfold lastSlashSeg
    rw [List.reverse_cons]
    rw [takeWhile_append_of_mem_neg _ '/' _ _ (List.mem_reverse.mpr hsl) (by simp)]
  unfold pySplitParams
  rw [if_pos (mem_contains _ _ (List.mem_cons_of_mem _ hsl))]
  rw [hseg2, if_neg hseg]

/-! ### C8: reparsing an unparsed canonical URL, the two output shapes -/

theorem urlparse_reparse_net (s' n p' q : Str)
    (hs : s' = [] ∨ ∃ c cs, s' = c :: cs ∧ charIsAlpha c = true ∧
      cs.all isSchemeChar = true ∧ lowerStr s' = s')
    (hn : ∀ c ∈ n, isNetlocDelim c = false)
    (hpne : p' ≠ [])
    (hpq : '?' ∉ p') (hpf : '#' ∉ p') (hqf : '#' ∉ q)
    (htrn : ∀ c, c ∈ n ∨ c ∈ p' ∨ c ∈ q → isTRN c = false)
    (hbr : n ≠ [] ∨ (s' ≠ [] ∧ s' ∈ usesNetloc ∧ ¬ p'.take 2 = str ("//")))
    (hsemi2 : s' ∈ usesParams →
      (if p' ≠ [] ∧ p'.head? ≠ some '/' then '/' :: p' else p').contains ';' = true →
      pySplitParams (if p' ≠ [] ∧ p'.head? ≠ some '/' then '/' :: p' else p')
        = ((if p' ≠ [] ∧ p'.head? ≠ some '/' then '/' :: p' else p'), [])) :
    urlparsePy [] (urlunparse ⟨s', n, p', [], q, []⟩)
      = ⟨s', n, (if p' ≠ [] ∧ p'.head? ≠ some '/' then '/' :: p' else p'), [], q, []⟩ := by
  obtain ⟨pt, hpt⟩ := headSlash_shape p' hpne
  have hmm : ∀ c ∈ '/' :: pt, c = '/' ∨ c ∈ p' := by
    intro c hc
    rw [← hpt] at hc
    exact headSlash_mem p' c hc
  have hpq2 : '?' ∉ '/' :: pt := by
    intro hc
    rcases hmm '?' hc with he | he
    · exact absurd he (by decide)
    · exact hpq he
  have hpf2 : '#' ∉ '/' :: pt := by
    intro hc
    rcases hmm '#' hc with he | he
    · exact absurd he (by decide)
    · exact hpf he
  have htrn2 : ∀ c, c ∈ n ∨ c ∈ '/' :: pt ∨ c ∈ q → isTRN c = false := by
    intro c hc
    rcases hc with h | h | h
    · exact htrn c (Or.inl h)
    · rcases hmm c h with rfl | he
      · decide
      · exact htrn c (Or.inr (Or.inl he))
    · exact htrn c (Or.inr (Or.inr h))
  rw [urlunparse_canon, if_pos hbr, hpt]
  by_cases hs0 : s' = []
  · subst hs0
    rw [if_pos rfl]
    apply urlparse_finish
    · rw [urlsplitPy_empty_dflt]
      rw [strip_fix_netloc_noscheme n pt q htrn2]
      exact urlsplitCore_netloc_stage [] _ [] n pt q hn hpq2 hpf2 hqf
        (Or.inl ⟨schemeDetect_none_head '/' _ (by decide), rfl, rfl⟩)
    · rw [hpt] at hsemi2
      exact hsemi2
  · rcases hs with rfl | ⟨c, cs, hsc, hal, hall, hlow⟩
    · exact absurd rfl hs0
    rw [if_neg hs0]
    subst hsc
    apply urlparse_finish
    · rw [urlsplitPy_empty_dflt]
      rw [strip_fix_scheme c cs _ hal hall (trn_free_netR n ('/' :: pt) q htrn2)]
      exact urlsplitCore_netloc_stage [] _ (c :: cs) n pt q hn hpq2 hpf2 hqf
        (Or.inr (schemeDetect_wf_front (c :: cs) _ c cs rfl hal hall hlow))
    · rw [hpt] at hsemi2
      exact hsemi2

theorem urlparse_reparse_plain (s' p' q : Str)
    (hs : s' = [] ∨ ∃ c cs, s' = c :: cs ∧ charIsAlpha c = true ∧
      cs.all isSchemeChar = true ∧ lowerStr s' = s')
    (hpne : p' ≠ [])
    (hpq : '?' ∉ p') (hpf : '#' ∉ p') (hqf : '#' ∉ q)
    (htrn : ∀ c, c ∈ p' ∨ c ∈ q → isTRN c = false)
    (h2 : ¬ p'.take 2 = str ("//"))
    (hbrf : ¬((([] : Str) ≠ []) ∨ (s' ≠ [] ∧ s' ∈ usesNetloc ∧ ¬ p'.take 2 = str ("//"))))
    (hC0 : s' = [] → ∀ c t, p' = c :: t → isC0OrSpace c = false)
    (hSD : s' = [] → schemeDetect (p' ++ (if q = [] then [] else '?' :: q)) = none)
    (hsemi : s' ∈ usesParams → p'.contains ';' = true → pySplitParams p' = (p', [])) :
    urlparsePy [] (urlunparse ⟨s', [], p', [], q, []⟩) = ⟨s', [], p', [], q, []⟩ := by
  rw [urlunparse_canon, if_neg hbrf]
  have hY : (if q = [] then [] else '?' :: q) = [] ∨
      ∃ t, (if q = [] then [] else '?' :: q) = '?' :: t := by
    by_cases hq : q = []
    · rw [if_pos hq]
      exact Or.inl rfl
    · rw [if_neg hq]
      exact Or.inr ⟨q, rfl⟩
  have h2app := take2_append_ne p' _ hpne h2 hY
  by_cases hs0 : s' = []
  · subst hs0
    rw [if_pos rfl]
    apply urlparse_finish
    · rw [urlsplitPy_empty_dflt]
      rw [strip_fix_plain p' q hpne (hC0 rfl) htrn]
      exact urlsplitCore_plain_stage [] _ [] p' q hpq hpf hqf h2app
        (Or.inl ⟨hSD rfl, rfl, rfl⟩)
    · exact hsemi
  · rcases hs with rfl | ⟨c, cs, hsc, hal, hall, hlow⟩
    · exact absurd rfl hs0
    rw [if_neg hs0]
    subst hsc
    apply urlparse_finish
    · rw [urlsplitPy_empty_dflt]
      rw [strip_fix_scheme c cs _ hal hall (trn_free_plainR p' q htrn)]
      exact urlsplitCore_plain_stage [] _ (c :: cs) p' q hpq hpf hqf h2app
        (Or.inr (schemeDetect_wf_front (c :: cs) _ c cs rfl hal hall hlow))
    · exact hsemi

theorem take2_slash (l : Str) (h : l.take 2 = str ("//")) : ∃ t, l = '/' :: t := by
  cases l with
  | nil => exact absurd h (by decide)
  | cons a t =>
    have h2 : a :: t.take 1 = '/' :: ['/'] := h
    injection h2 with h1 _
    exact ⟨t, by rw [h1]⟩

theorem normalizeUrl_eq (bs u : Str) :
    normalizeUrl bs u = urlunparse
      ⟨(if (urlparsePy [] u).scheme ≠ [] then (urlparsePy [] u).scheme else bs),
        (urlparsePy [] u).netloc,
        (if (urlparsePy [] u).path ≠ [] then (urlparsePy [] u).path else str ("/")),
        [], (urlparsePy [] u).query, []⟩ := rfl

theorem normalizeUrl_idem_of (bs u : Str)
    (hbs : bs = [] ∨ ∃ c cs, bs = c :: cs ∧ charIsAlpha c = true ∧
      cs.all isSchemeChar = true ∧ lowerStr bs = bs)
    (hside : (urlparsePy [] u).netloc ≠ [] ∨
      ¬ (urlparsePy [] u).path.take 2 = str ("//")) :
    normalizeUrl bs (normalizeUrl bs u) = normalizeUrl bs u := by
  obtain ⟨S, hS⟩ : ∃ x : Str,
      x = (if (urlparsePy [] u).scheme ≠ [] then (urlparsePy [] u).scheme else bs) := ⟨_, rfl⟩
  obtain ⟨Pp, hPp⟩ : ∃ x : Str,
      x = (if (urlparsePy [] u).path ≠ [] then (urlparsePy [] u).path else str ("/")) :=
    ⟨_, rfl⟩
  have hPpne : Pp ≠ [] := by
    rw [hPp]
    by_cases h : (urlparsePy [] u).path = []
    · rw [if_neg (not_not_intro h)]
      decide
    · rw [if_pos h]
      exact h
  have hS2 : (if S ≠ [] then S else bs) = S := by
    by_cases h : S = []
    · rw [if_neg (not_not_intro h)]
      by_cases hsch : (urlparsePy [] u).scheme = []
      · rw [hS, if_neg (not_not_intro hsch)]
      · exfalso
        rw [hS, if_pos hsch] at h
        exact hsch h
    · rw [if_pos h]
  have hSwf : S = [] ∨ ∃ c cs, S = c :: cs ∧ charIsAlpha c = true ∧
      cs.all isSchemeChar = true ∧ lowerStr S = S := by
    by_cases h : (urlparsePy [] u).scheme = []
    · rw [hS, if_neg (not_not_intro h)]
      exact hbs
    · rw [hS, if_pos h]
      rcases parse_scheme_wf u with h0 | h0
      · exact absurd h0 h
      · exact Or.inr h0
  have hpqf : '?' ∉ Pp := by
    rw [hPp]
    by_cases h : (urlparsePy [] u).path = []
    · rw [if_neg (not_not_intro h)]
      decide
    · rw [if_pos h]
      intro hm
      exact absurd rfl (parse_path_no_qf u '?' hm).1
  have hpff : '#' ∉ Pp := by
    rw [hPp]
    by_cases h : (urlparsePy [] u).path = []
    · rw [if_neg (not_not_intro h)]
      decide
    · rw [if_pos h]
      intro hm
      exact absurd rfl (parse_path_no_qf u '#' hm).2
  have hqff : '#' ∉ (urlparsePy [] u).query := by
    intro hm
    exact absurd rfl (parse_query_no_f u '#' hm)
  have htrnf : ∀ c, c ∈ (urlparsePy [] u).netloc ∨ c ∈ Pp ∨
      c ∈ (urlparsePy [] u).query → isTRN c = false := by
    intro c hc
    rcases hc with h | h | h
    · exact stripUrl_mem_not_trn u c (parse_mem_strip u c (Or.inl h))
    · rw [hPp] at h
      by_cases hp : (urlparsePy [] u).path = []
      · rw [if_neg (not_not_intro hp)] at h
        rw [show str ("/") = ['/'] from rfl] at h
        rcases List.mem_singleton.mp h with rfl
        decide
      · rw [if_pos hp] at h
        exact stripUrl_mem_not_trn u c (parse_mem_strip u c (Or.inr (Or.inl h)))
    · exact stripUrl_mem_not_trn u c (parse_mem_strip u c (Or.inr (Or.inr h)))
  have hsemif : S ∈ usesParams → Pp.contains ';' = true → pySplitParams Pp = (Pp, []) := by
    intro hmem hcont
    rw [hPp] at hcont ⊢
    by_cases hp : (urlparsePy [] u).path = []
    · rw [if_neg (not_not_intro hp)] at hcont
      exact absurd hcont (by decide)
    · rw [if_pos hp] at hcont ⊢
      apply parse_params_stable u hcont
      by_cases h : (urlparsePy [] u).scheme = []
      · exact Or.inr h
      · left
        rw [hS, if_pos h] at hmem
        exact hmem
  by_cases hbr : (urlparsePy [] u).netloc ≠ [] ∨
      (S ≠ [] ∧ S ∈ usesNetloc ∧ ¬ Pp.take 2 = str ("//"))
  · -- the unparse emits a `//` section; the path may acquire a leading slash
    have hsemi2f : S ∈ usesParams →
        (if Pp ≠ [] ∧ Pp.head? ≠ some '/' then '/' :: Pp else Pp).contains ';' = true →
        pySplitParams (if Pp ≠ [] ∧ Pp.head? ≠ some '/' then '/' :: Pp else Pp)
          = ((if Pp ≠ [] ∧ Pp.head? ≠ some '/' then '/' :: Pp else Pp), []) := by
      intro hmem hcont
      rcases headSlash_cases Pp hPpne with ⟨he, _⟩ | ⟨he, _⟩
      · rw [he] at hcont ⊢
        exact hsemif hmem hcont
      · rw [he] at hcont ⊢
        have hm : ';' ∈ Pp := by
          have hmm := contains_mem _ _ hcont
          rcases List.mem_cons.mp hmm with he2 | hmm2
          · exact absurd he2 (by decide)
          · exact hmm2
        exact pySplitParams_cons_slash Pp (hsemif hmem (mem_contains _ _ hm)) hm
    have hrep := urlparse_reparse_net S (urlparsePy [] u).netloc Pp (urlparsePy [] u).query
      hSwf (parse_netloc_nodelim u) hPpne hpqf hpff hqff htrnf hbr hsemi2f
    rw [normalizeUrl_eq bs u, ← hS, ← hPp]
    rw [normalizeUrl_eq bs
      (urlunparse ⟨S, (urlparsePy [] u).netloc, Pp, [], (urlparsePy [] u).query, []⟩)]
    rw [hrep]
    dsimp only
    obtain ⟨pt, hpt⟩ := headSlash_shape Pp hPpne
    have hins_ne : (if Pp ≠ [] ∧ Pp.head? ≠ some '/' then '/' :: Pp else Pp) ≠ [] := by
      rw [hpt]
      simp
    rw [hS2, if_pos hins_ne]
    rw [urlunparse_canon, urlunparse_canon]
    have hbr2 : (urlparsePy [] u).netloc ≠ [] ∨ (S ≠ [] ∧ S ∈ usesNetloc ∧
        ¬ (if Pp ≠ [] ∧ Pp.head? ≠ some '/' then '/' :: Pp else Pp).take 2 = str ("//")) := by
      rcases hbr with h | ⟨h1, h2c, h3⟩
      · exact Or.inl h
      · exact Or.inr ⟨h1, h2c, headSlash_take2 Pp hPpne h3⟩
    rw [if_pos hbr2, if_pos hbr]
    have hii := headSlash_idem Pp hPpne
    by_cases hs0 : S = []
    · rw [if_pos hs0, if_pos hs0, hii]
    · rw [if_neg hs0, if_neg hs0, hii]
  · -- no `//` section in the output
    have hN0 : (urlparsePy [] u).netloc = [] := by
      by_cases h : (urlparsePy [] u).netloc = []
      · exact h
      · exact absurd (Or.inl h) hbr
    have h2 : ¬ Pp.take 2 = str ("//") := by
      rcases hside with h | h
      · exact absurd hN0 h
      · rw [hPp]
        by_cases hp : (urlparsePy [] u).path = []
        · rw [if_neg (not_not_intro hp)]
          decide
        · rw [if_pos hp]
          exact h
    have hbrf2 : ¬((([] : Str) ≠ []) ∨
        (S ≠ [] ∧ S ∈ usesNetloc ∧ ¬ Pp.take 2 = str ("//"))) := by
      intro hcon
      rcases hcon with h | h
      · exact h rfl
      · exact hbr (Or.inr h)
    have hC0f : S = [] → ∀ c t, Pp = c :: t → isC0OrSpace c = false := by
      intro hS0 c t hct
      have hsch0 : (urlparsePy [] u).scheme = [] := by
        by_cases h : (urlparsePy [] u).scheme = []
        · exact h
        · exfalso
          rw [hS, if_pos h] at hS0
          exact h hS0
      rw [hPp] at hct
      by_cases hp : (urlparsePy [] u).path = []
      · rw [if_neg (not_not_intro hp)] at hct
        have hc2 : ('/' :: [] : Str) = c :: t := hct
        injection hc2 with h1 _
        rw [← h1]
        decide
      · rw [if_pos hp] at hct
        exact parse_head_c0 u hsch0 c t hct
    have hSDf : S = [] → schemeDetect (Pp ++
        (if (urlparsePy [] u).query = [] then [] else '?' :: (urlparsePy [] u).query))
          = none := by
      intro hS0
      have hsch0 : (urlparsePy [] u).scheme = [] := by
        by_cases h : (urlparsePy [] u).scheme = []
        · exact h
        · exfalso
          rw [hS, if_pos h] at hS0
          exact h hS0
      rw [hPp]
      by_cases hp : (urlparsePy [] u).path = []
      · rw [if_neg (not_not_intro hp)]
        exact schemeDetect_none_head '/' _ (by decide)
      · rw [if_pos hp]
        apply parse_sd_none u hsch0 hp
        by_cases hq : (urlparsePy [] u).query = []
        · rw [if_pos hq]
          exact Or.inl rfl
        · rw [if_neg hq]
          exact Or.inr ⟨_, rfl⟩
    have htrnf2 : ∀ c, c ∈ Pp ∨ c ∈ (urlparsePy [] u).query → isTRN c = false :=
      fun c h => htrnf c (Or.inr h)
    have hrep := urlparse_reparse_plain S Pp (urlparsePy [] u).query
      hSwf hPpne hpqf hpff hqff htrnf2 h2 hbrf2 hC0f hSDf hsemif
    rw [normalizeUrl_eq bs u, ← hS, ← hPp, hN0]
    rw [normalizeUrl_eq bs (urlunparse ⟨S, [], Pp, [], (urlparsePy [] u).query, []⟩)]
    rw [hrep]
    dsimp only
    rw [hS2, if_pos hPpne]

/-- C8 (amended): normalization is idempotent on every URL whose parse has a
nonempty network location or whose parsed path does not begin with `//`, and
two URLs whose parses agree on scheme, netloc and query, with paths equal up
to the empty-path-to-`/` defaulting (in particular two URLs differing only in
their fragment), normalize to the same canonical URL. On the remaining URLs
idempotence FAILS (see the counterexample): `urlunsplit` re-emits an
empty-netloc `//`-headed path bare, so the reparse of the normalized URL
promotes part of the path into a netloc. -/
theorem C8_normalization_idempotent :
    (∀ (cfg : Config) (u : Str),
      ((urlparsePy [] u).netloc ≠ [] ∨ ¬ (urlparsePy [] u).path.take 2 = str ("//")) →
      normalizeUrl (baseScheme cfg) (normalizeUrl (baseScheme cfg) u)
        = normalizeUrl (baseScheme cfg) u) ∧
    (∀ (bs u1 u2 : Str),
      (urlparsePy [] u1).scheme = (urlparsePy [] u2).scheme →
      (urlparsePy [] u1).netloc = (urlparsePy [] u2).netloc →
      ((urlparsePy [] u1).path = (urlparsePy [] u2).path ∨
        ((urlparsePy [] u1).path = [] ∧ (urlparsePy [] u2).path = str ("/")) ∨
        ((urlparsePy [] u1).path = str ("/") ∧ (urlparsePy [] u2).path = [])) →
      (urlparsePy [] u1).query = (urlparsePy [] u2).query →
      normalizeUrl bs u1 = normalizeUrl bs u2) := by
  constructor
  · intro cfg u hside
    exact normalizeUrl_idem_of (baseScheme cfg) u (parse_scheme_wf cfg.start_url) hside
  · intro bs u1 u2 hsch hnet hpath hq
    rw [normalizeUrl_eq bs u1, normalizeUrl_eq bs u2, hsch, hnet, hq]
    have e1 : (if ([] : Str) ≠ [] then ([] : Str) else str ("/")) = str ("/") := by simp
    have e2 : (if str ("/") ≠ [] then str ("/") else str ("/")) = str ("/") := by
      rw [if_pos (by decide)]
    rcases hpath with hp | ⟨h1, h2⟩ | ⟨h1, h2⟩
    · rw [hp]
    · rw [h1, h2, e1, e2]
    · rw [h1, h2, e1, e2]

/-- C8 counterexample: `////x` parses to an empty netloc with path `//x`; its
normalization under base scheme `https` is `https://x` — itself a canonical
URL in the normalizer's image — whose own normalization is `https://x/`, so
normalization is NOT idempotent on every URL, contrary to the claim. -/
theorem C8_counterexample_protocol_relative :
    normalizeUrl (str ("https")) (normalizeUrl (str ("https")) (str ("////x")))
      ≠ normalizeUrl (str ("https")) (str ("////x")) := by decide

/-- C8 witness: the idempotence part applied to a URL with a nonempty netloc,
and the invariance part applied to two URLs differing only in fragment. -/
theorem C8_witness_instance :
    normalizeUrl (baseScheme cfgTest)
        (normalizeUrl (baseScheme cfgTest) (str ("https://e.com/a#x")))
      = normalizeUrl (baseScheme cfgTest) (str ("https://e.com/a#x")) ∧
    normalizeUrl (str ("https")) (str ("https://e.com/a#x"))
      = normalizeUrl (str ("https")) (str ("https://e.com/a#y")) :=
  ⟨C8_normalization_idempotent.1 cfgTest (str ("https://e.com/a#x")) (by decide),
   C8_normalization_idempotent.2 (str ("https")) (str ("https://e.com/a#x"))
     (str ("https://e.com/a#y")) (by decide) (by decide) (Or.inl (by decide)) (by decide)⟩

end WebCrawl
